import Mathlib

/-
Verification of the AlertSockets notification relay (src/index.ts).

The server state is the `NotificationServer` instance: the two `Map`s
`userChannels : Map<string, Set<WebSocketClient>>` and
`apiKeys : Map<string, string>`, together with the mutable
`WebSocketClient` objects themselves.  Client objects are identified by a
`Nat` identity; the `conns` association list plays the role of the heap of
client objects, so that the sets stored in `userChannels` are sets of
object identities, exactly as JS `Set`s hold object references.

JS `Map`s are modelled as association lists with first-match lookup
(real `Map`s have unique keys, which is an invariant of the model), and JS
`Set`s as duplicate-free lists in insertion order.
-/

/-- JS `Map.get`: first matching key, `none` for a missing key. -/
def mapGet {κ α : Type} [DecidableEq κ] : List (κ × α) → κ → Option α
  | [], _ => none
  | (k0, v) :: rest, k => if k = k0 then some v else mapGet rest k

/-- JS `Map.set`: overwrite the entry in place if the key exists, else append. -/
def mapSet {κ α : Type} [DecidableEq κ] : List (κ × α) → κ → α → List (κ × α)
  | [], k, v => [(k, v)]
  | (k0, v0) :: rest, k, v =>
      if k = k0 then (k0, v) :: rest else (k0, v0) :: mapSet rest k v

/-- JS `Map.delete`: remove the entry with the given key. -/
def mapDelete {κ α : Type} [DecidableEq κ] : List (κ × α) → κ → List (κ × α)
  | [], _ => []
  | (k0, v0) :: rest, k =>
      if k = k0 then rest else (k0, v0) :: mapDelete rest k

/-- In-place mutation of the object stored under a key (JS objects are mutated
through the reference held in the map). -/
def mapUpdate {κ α : Type} [DecidableEq κ] : List (κ × α) → κ → (α → α) → List (κ × α)
  | [], _, _ => []
  | (k0, v0) :: rest, k, f =>
      if k = k0 then (k0, f v0) :: rest else (k0, v0) :: mapUpdate rest k f

/-- JS `Set.add`: no-op when the element is present, else append. -/
def setAdd (s : List Nat) (c : Nat) : List Nat := if c ∈ s then s else s ++ [c]

/-- The mutable part of a `WebSocketClient`: `isAlive`, `droplertId`,
`websiteUrl` are the fields declared in `index.ts`; `isWebSocket` records
whether the object is an actual `WebSocket` instance (`instanceof WebSocket`),
and `readyState` its transport state (`none` models `undefined`, the value
read on the plain placeholder objects created by `POST /set`). -/
structure WebSocketClient where
  isAlive : Bool
  droplertId : Option String
  websiteUrl : Option String
  isWebSocket : Bool
  readyState : Option Nat
deriving DecidableEq

/-- `WebSocket.OPEN`. -/
def WS_OPEN : Nat := 1

/-- `WebSocket.CLOSED`. -/
def WS_CLOSED : Nat := 3

/-- `notification.type` as validated by `NotificationPayloadSchema`. -/
inductive NotifType where
  | toast
  | alert
  | alert_dialog
deriving DecidableEq

/-- The `notification` object of a `NotificationPayload`. -/
structure Notification where
  type : NotifType
  title : String
  message : String
  style : String
  backgroundColor : String
  textColor : String
  borderColor : String
  imageUrl : Option String
deriving DecidableEq

/-- A schema-valid body of `POST /notify`. -/
structure NotificationPayload where
  droplertId : String
  websites : List String
  notification : Notification
deriving DecidableEq

/-- The state of the `NotificationServer` instance. -/
structure ServerState where
  userChannels : List (String × List Nat)
  apiKeys : List (String × String)
  conns : List (Nat × WebSocketClient)
deriving DecidableEq

/-- State at construction: both maps empty, no client objects. -/
def initState : ServerState := ⟨[], [], []⟩

/-- The live connection set registered for an account, as a list of client
identities (`[]` when the account has no entry). -/
def chanList (st : ServerState) (a : String) : List Nat :=
  (mapGet st.userChannels a).getD []

/-- `handleConnection`: a freshly accepted socket gets `isAlive = true`; it is
a real `WebSocket` whose transport is open, and both tags are unset. -/
def handleConnection (st : ServerState) (ws : Nat) : ServerState :=
  { st with conns := st.conns ++ [(ws, ⟨true, none, none, true, some WS_OPEN⟩)] }

/-- `handleSubscription`: tag the client with `droplertId` / `websiteUrl`,
create the channel set if absent, and add the client to it.  (The client is
never removed from a previously subscribed account's set.) -/
def handleSubscription (st : ServerState) (ws : Nat) (droplertId websiteUrl : String) :
    ServerState :=
  let conns1 := mapUpdate st.conns ws
    (fun c => { c with droplertId := some droplertId, websiteUrl := some websiteUrl })
  let cur := (mapGet st.userChannels droplertId).getD []
  { st with
    conns := conns1
    userChannels := mapSet st.userChannels droplertId (setAdd cur ws) }

/-- Parsed JSON values, the domain of `SubscriptionMessageSchema.parse`.
An `obj` is the result of `JSON.parse`, so its keys are unique. -/
inductive Json where
  | str : String → Json
  | num : Int → Json
  | obj : List (String × Json) → Json
  | arr : List Json → Json
  | jbool : Bool → Json
  | null : Json

/-- `SubscriptionMessageSchema.parse`: the value must be an object whose
`action` field is the literal string `subscribe` and whose `droplertId` and
`websiteUrl` fields are strings (extra keys are stripped by zod). -/
def parseSubscription (j : Json) : Option (String × String) :=
  match j with
  | Json.obj fields =>
      match mapGet fields "action", mapGet fields "droplertId", mapGet fields "websiteUrl" with
      | some (Json.str a), some (Json.str d), some (Json.str w) =>
          if a = "subscribe" then some (d, w) else none
      | _, _, _ => none
  | _ => none

/-- JSON frames the server writes to a socket. -/
inductive OutMsg where
  | subscribed : String → OutMsg
  | invalidSubscription : OutMsg
  | notification : Notification → OutMsg
deriving DecidableEq

/-- The `message` handler installed by `handleConnection`: parse the frame
against `SubscriptionMessageSchema`; on success run `handleSubscription` and
acknowledge, on any parse failure reply with the error frame and leave all
state untouched (the socket is never closed here).  `none` models a frame
that is not even valid JSON (`JSON.parse` throwing lands in the same catch). -/
def wsOnMessage (st : ServerState) (ws : Nat) (msg : Option Json) :
    ServerState × List (Nat × OutMsg) :=
  match Option.bind msg parseSubscription with
  | some (d, w) => (handleSubscription st ws d w, [(ws, OutMsg.subscribed w)])
  | none => (st, [(ws, OutMsg.invalidSubscription)])

/-- The per-client filter of `handleNotification`:
`client.readyState === WebSocket.OPEN && client.websiteUrl &&
websites.includes(client.websiteUrl)`.  Note the middle conjunct is a JS
truthiness test, so both an unset and an empty-string `websiteUrl` fail it. -/
def clientDeliverable (st : ServerState) (websites : List String) (c : Nat) : Bool :=
  match mapGet st.conns c with
  | none => false
  | some conn =>
      decide (conn.readyState = some WS_OPEN) &&
        (match conn.websiteUrl with
         | none => false
         | some u => !(decide (u = "")) && decide (u ∈ websites))

/-- Outcome of `POST /notify` for a schema-valid body. -/
inductive NotifyResult where
  | notFound
  | success
deriving DecidableEq

/-- `handleNotification` on a schema-valid payload: look up the account's
channel set; a missing entry is the 404 path with no sends; otherwise reply
success and push the notification frame to every client passing
`clientDeliverable`.  The second component lists the frames actually sent. -/
def handleNotification (st : ServerState) (p : NotificationPayload) :
    NotifyResult × List (Nat × OutMsg) :=
  match mapGet st.userChannels p.droplertId with
  | none => (NotifyResult.notFound, [])
  | some clients =>
      (NotifyResult.success,
        (clients.filter (clientDeliverable st p.websites)).map
          (fun c => (c, OutMsg.notification p.notification)))

/-- `storeApiKey`: unconditional overwrite. -/
def storeApiKey (st : ServerState) (droplertId apiKey : String) : ServerState :=
  { st with apiKeys := mapSet st.apiKeys droplertId apiKey }

/-- `verifyApiKey`: `this.apiKeys.get(droplertId) === apiKey` (argument order
as in the source). -/
def verifyApiKey (st : ServerState) (apiKey droplertId : String) : Bool :=
  decide (mapGet st.apiKeys droplertId = some apiKey)

/-- `setApiKey` (`POST /set`) past its guards: store the key, then add a fresh
placeholder object — a plain object literal carrying the two tags and
`isAlive: true`, not a `WebSocket` instance, with no `readyState` — to the
account's channel set.  `newId` is the identity of the fresh object. -/
def setApiKey (st : ServerState) (newId : Nat) (apiKey droplertId websiteUrl : String) :
    ServerState :=
  let st1 := storeApiKey st droplertId apiKey
  let cur := (mapGet st1.userChannels droplertId).getD []
  { st1 with
    userChannels := mapSet st1.userChannels droplertId (setAdd cur newId)
    conns := st1.conns ++ [(newId, ⟨true, some droplertId, some websiteUrl, false, none⟩)] }

/-- `removeConnection`: guarded by the JS truthiness test `if (ws.droplertId)`
(so both an unset tag and the empty-string tag make it a no-op); otherwise
remove the client from its tagged account's set and drop the map entry when
the set becomes empty.  The client object itself is untouched. -/
def removeConnection (st : ServerState) (ws : Nat) : ServerState :=
  match mapGet st.conns ws with
  | none => st
  | some conn =>
      match conn.droplertId with
      | none => st
      | some d =>
          if d = "" then st
          else
            match mapGet st.userChannels d with
            | none => st
            | some clients =>
                let clients1 := clients.erase ws
                if clients1 = [] then
                  { st with userChannels := mapDelete st.userChannels d }
                else
                  { st with userChannels := mapSet st.userChannels d clients1 }

/-- The `pong` handler: `ws.isAlive = true`. -/
def handlePong (st : ServerState) (ws : Nat) : ServerState :=
  { st with conns := mapUpdate st.conns ws (fun c => { c with isAlive := true }) }

/-- Transport-level closing of a real socket: its `readyState` becomes
`CLOSED`.  (The registry is only updated later, by the `close` event running
`removeConnection`.) -/
def transportClosed (st : ServerState) (ws : Nat) : ServerState :=
  { st with conns := mapUpdate st.conns ws (fun c => { c with readyState := some WS_CLOSED }) }

/-- One client visit of the `cleanup` sweep: a client with `isAlive` false is
unregistered and skipped; otherwise a real `WebSocket` gets `isAlive = false`
and a ping (the second component collects the pinged identities), and a
non-`WebSocket` object is left alone (the `else` branch only logs). -/
def cleanupStep (acc : ServerState × List Nat) (c : Nat) : ServerState × List Nat :=
  match mapGet acc.1.conns c with
  | none => acc
  | some conn =>
      if conn.isAlive = false then (removeConnection acc.1 c, acc.2)
      else if conn.isWebSocket then
        ({ acc.1 with conns := mapUpdate acc.1.conns c (fun x => { x with isAlive := false }) },
          acc.2 ++ [c])
      else acc

/-- All registered client identities in sweep order (`userChannels.forEach`
then `clients.forEach`).  The sweep creates no new entries, so folding over
this snapshot agrees with JS live iteration. -/
def sweepSnapshot (st : ServerState) : List Nat :=
  (st.userChannels.map Prod.snd).flatten

/-- The 30-second `cleanup` sweep; the second component is the list of clients
that were pinged this cycle. -/
def cleanup (st : ServerState) : ServerState × List Nat :=
  (sweepSnapshot st).foldl cleanupStep (st, [])

/-- Registering `cs` in order: each client connects and immediately subscribes
to account `a`, origin `url`. -/
def registerAll (st : ServerState) (a url : String) (cs : List Nat) : ServerState :=
  cs.foldl (fun s c => handleSubscription (handleConnection s c) c a url) st

/-- Unregistering `cs` in order. -/
def unregisterAll (st : ServerState) (cs : List Nat) : ServerState :=
  cs.foldl removeConnection st

/-- Events of the server, as state transitions.  Subscribe, pong, transport
close and the `close` event only happen on real `WebSocket` instances;
`connect` and `setKey` allocate fresh object identities; `setKey` requires a
truthy `apikey` header (its falsy path is a 401 with no state change).
Frames failing subscription parsing and `POST /notify` do not change state, so
they need no constructor. -/
inductive Step : ServerState → ServerState → Prop where
  | connect (st : ServerState) (c : Nat) (hfresh : mapGet st.conns c = none) :
      Step st (handleConnection st c)
  | subscribe (st : ServerState) (c : Nat) (d w : String) (conn : WebSocketClient)
      (hc : mapGet st.conns c = some conn) (hws : conn.isWebSocket = true) :
      Step st (handleSubscription st c d w)
  | setKey (st : ServerState) (newId : Nat) (k d w : String)
      (hfresh : mapGet st.conns newId = none) (hk : k ≠ "") :
      Step st (setApiKey st newId k d w)
  | pong (st : ServerState) (c : Nat) (conn : WebSocketClient)
      (hc : mapGet st.conns c = some conn) (hws : conn.isWebSocket = true) :
      Step st (handlePong st c)
  | socketClosed (st : ServerState) (c : Nat) (conn : WebSocketClient)
      (hc : mapGet st.conns c = some conn) (hws : conn.isWebSocket = true) :
      Step st (transportClosed st c)
  | closeEvent (st : ServerState) (c : Nat) (conn : WebSocketClient)
      (hc : mapGet st.conns c = some conn) (hws : conn.isWebSocket = true) :
      Step st (removeConnection st c)
  | sweep (st : ServerState) :
      Step st (cleanup st).1

/-- Like `Step`, but a subscribe frame is only accepted on a client that is
untagged or re-subscribes under its current account (the discipline §9 of the
spec asks callers to follow). -/
inductive StepNR : ServerState → ServerState → Prop where
  | connect (st : ServerState) (c : Nat) (hfresh : mapGet st.conns c = none) :
      StepNR st (handleConnection st c)
  | subscribe (st : ServerState) (c : Nat) (d w : String) (conn : WebSocketClient)
      (hc : mapGet st.conns c = some conn) (hws : conn.isWebSocket = true)
      (hnr : conn.droplertId = none ∨ conn.droplertId = some d) :
      StepNR st (handleSubscription st c d w)
  | setKey (st : ServerState) (newId : Nat) (k d w : String)
      (hfresh : mapGet st.conns newId = none) (hk : k ≠ "") :
      StepNR st (setApiKey st newId k d w)
  | pong (st : ServerState) (c : Nat) (conn : WebSocketClient)
      (hc : mapGet st.conns c = some conn) (hws : conn.isWebSocket = true) :
      StepNR st (handlePong st c)
  | socketClosed (st : ServerState) (c : Nat) (conn : WebSocketClient)
      (hc : mapGet st.conns c = some conn) (hws : conn.isWebSocket = true) :
      StepNR st (transportClosed st c)
  | closeEvent (st : ServerState) (c : Nat) (conn : WebSocketClient)
      (hc : mapGet st.conns c = some conn) (hws : conn.isWebSocket = true) :
      StepNR st (removeConnection st c)
  | sweep (st : ServerState) :
      StepNR st (cleanup st).1

/-- States reachable from server construction. -/
def Reach (st : ServerState) : Prop := Relation.ReflTransGen Step initState st

/-- States reachable without re-tagging subscriptions. -/
def ReachNR (st : ServerState) : Prop := Relation.ReflTransGen StepNR initState st

/-- Structural well-formedness of the `userChannels` map: unique keys (a JS
`Map`), duplicate-free sets (JS `Set`s), and no empty set stored. -/
structure ChanInv (L : List (String × List Nat)) : Prop where
  keys : (L.map Prod.fst).Nodup
  nodups : ∀ a l, mapGet L a = some l → l.Nodup
  nonempty : ∀ a l, mapGet L a = some l → l ≠ []

/-- Every registered client exists and is tagged with the account whose set it
sits in (the registry invariant of §3; it only survives the no-retag step
relation). -/
def TagInv (st : ServerState) : Prop :=
  ∀ a l c, mapGet st.userChannels a = some l → c ∈ l →
    ∃ conn, mapGet st.conns c = some conn ∧ conn.droplertId = some a

/-- A sample notification body, used for concrete evaluations. -/
def demoNotification : Notification :=
  ⟨NotifType.toast, "Hi", "Hello", "", "x", "y", "z", none⟩

/-- One freshly accepted socket (identity 1). -/
def stOneConn : ServerState := handleConnection initState 1

/-- Socket 1 subscribed to account `A`, origin `u`. -/
def stA : ServerState := handleSubscription stOneConn 1 "A" "u"

/-- Socket 1 subscribed to account `A` with the empty-string origin. -/
def stO : ServerState := handleSubscription stOneConn 1 "A" ""

/-- Socket 1 re-subscribed under account `B` after subscribing under `A`. -/
def stAB : ServerState := handleSubscription stA 1 "B" "u"

/-- A `POST /set` placeholder (identity 7) for account `A`, origin `u`. -/
def stPlaceholder : ServerState := setApiKey initState 7 "k" "A" "u"

/- ### Lemmas about the map and set primitives -/

theorem mapGet_mapSet_self {κ α : Type} [DecidableEq κ] (m : List (κ × α)) (k : κ) (v : α) :
    mapGet (mapSet m k v) k = some v := by
  induction m with
  | nil => simp [mapSet, mapGet]
  | cons e rest ih =>
      obtain ⟨k0, v0⟩ := e
      by_cases h : k = k0
      · simp [mapSet, h, mapGet]
      · simp [mapSet, h, mapGet, ih]

theorem mapGet_mapSet_ne {κ α : Type} [DecidableEq κ] (m : List (κ × α)) (k k1 : κ) (v : α)
    (h : k1 ≠ k) : mapGet (mapSet m k v) k1 = mapGet m k1 := by
  induction m with
  | nil => simp [mapSet, mapGet, h]
  | cons e rest ih =>
      obtain ⟨k0, v0⟩ := e
      by_cases h0 : k = k0
      · subst h0
        simp [mapSet, mapGet, h]
      · by_cases h1 : k1 = k0
        · simp [mapSet, mapGet, h0, h1]
        · simp [mapSet, mapGet, h0, h1, ih]

theorem mapGet_mapDelete_ne {κ α : Type} [DecidableEq κ] (m : List (κ × α)) (k k1 : κ)
    (h : k1 ≠ k) : mapGet (mapDelete m k) k1 = mapGet m k1 := by
  induction m with
  | nil => simp [mapDelete, mapGet]
  | cons e rest ih =>
      obtain ⟨k0, v0⟩ := e
      by_cases h0 : k = k0
      · subst h0
        simp [mapDelete, mapGet, h]
      · by_cases h1 : k1 = k0
        · simp [mapDelete, mapGet, h0, h1]
        · simp [mapDelete, mapGet, h0, h1, ih]

theorem mapGet_mapUpdate_self {κ α : Type} [DecidableEq κ] (m : List (κ × α)) (k : κ)
    (f : α → α) : mapGet (mapUpdate m k f) k = (mapGet m k).map f := by
  induction m with
  | nil => simp [mapUpdate, mapGet]
  | cons e rest ih =>
      obtain ⟨k0, v0⟩ := e
      by_cases h : k = k0
      · simp [mapUpdate, h, mapGet]
      · simp [mapUpdate, h, mapGet, ih]

theorem mapGet_mapUpdate_ne {κ α : Type} [DecidableEq κ] (m : List (κ × α)) (k k1 : κ)
    (f : α → α) (h : k1 ≠ k) : mapGet (mapUpdate m k f) k1 = mapGet m k1 := by
  induction m with
  | nil => simp [mapUpdate, mapGet]
  | cons e rest ih =>
      obtain ⟨k0, v0⟩ := e
      by_cases h0 : k = k0
      · subst h0
        simp [mapUpdate, mapGet, h]
      · by_cases h1 : k1 = k0
        · simp [mapUpdate, mapGet, h0, h1]
        · simp [mapUpdate, mapGet, h0, h1, ih]

theorem mapGet_append_left {κ α : Type} [DecidableEq κ] (m1 m2 : List (κ × α)) (k : κ) (v : α)
    (h : mapGet m1 k = some v) : mapGet (m1 ++ m2) k = some v := by
  induction m1 with
  | nil => simp [mapGet] at h
  | cons e rest ih =>
      obtain ⟨k0, v0⟩ := e
      by_cases h0 : k = k0
      · simp [mapGet, h0] at h ⊢
        exact h
      · simp [mapGet, h0] at h ⊢
        exact ih h

theorem mapGet_append_none {κ α : Type} [DecidableEq κ] (m1 m2 : List (κ × α)) (k : κ)
    (h : mapGet m1 k = none) : mapGet (m1 ++ m2) k = mapGet m2 k := by
  induction m1 with
  | nil => simp
  | cons e rest ih =>
      obtain ⟨k0, v0⟩ := e
      by_cases h0 : k = k0
      · simp [mapGet, h0] at h
      · simp [mapGet, h0] at h ⊢
        exact ih h

theorem mapGet_none_iff {κ α : Type} [DecidableEq κ] (m : List (κ × α)) (k : κ) :
    mapGet m k = none ↔ k ∉ m.map Prod.fst := by
  induction m with
  | nil => simp [mapGet]
  | cons e rest ih =>
      obtain ⟨k0, v0⟩ := e
      by_cases h0 : k = k0
      · simp [mapGet, h0]
      · simp [mapGet, h0, ih]

theorem keys_mapSet_of_mem {κ α : Type} [DecidableEq κ] (m : List (κ × α)) (k : κ) (v : α)
    (h : k ∈ m.map Prod.fst) : (mapSet m k v).map Prod.fst = m.map Prod.fst := by
  induction m with
  | nil => simp at h
  | cons e rest ih =>
      obtain ⟨k0, v0⟩ := e
      by_cases h0 : k = k0
      · simp [mapSet, h0]
      · have h1 : k ∈ rest.map Prod.fst := by
          simp only [List.map_cons] at h
          rcases List.mem_cons.mp h with h2 | h2
          · exact absurd h2 h0
          · exact h2
        simp [mapSet, h0, ih h1]

theorem keys_mapSet_of_not_mem {κ α : Type} [DecidableEq κ] (m : List (κ × α)) (k : κ) (v : α)
    (h : k ∉ m.map Prod.fst) : (mapSet m k v).map Prod.fst = m.map Prod.fst ++ [k] := by
  induction m with
  | nil => simp [mapSet]
  | cons e rest ih =>
      obtain ⟨k0, v0⟩ := e
      simp only [List.map_cons, List.mem_cons, not_or] at h
      simp [mapSet, h.1, ih h.2]

theorem keys_mapDelete {κ α : Type} [DecidableEq κ] (m : List (κ × α)) (k : κ) :
    (mapDelete m k).map Prod.fst = (m.map Prod.fst).erase k := by
  induction m with
  | nil => simp [mapDelete]
  | cons e rest ih =>
      obtain ⟨k0, v0⟩ := e
      by_cases h0 : k = k0
      · subst h0
        simp [mapDelete, List.erase_cons_head]
      · simp [mapDelete, h0, ih, List.erase_cons_tail, Ne.symm h0]

theorem keys_mapUpdate {κ α : Type} [DecidableEq κ] (m : List (κ × α)) (k : κ) (f : α → α) :
    (mapUpdate m k f).map Prod.fst = m.map Prod.fst := by
  induction m with
  | nil => simp [mapUpdate]
  | cons e rest ih =>
      obtain ⟨k0, v0⟩ := e
      by_cases h0 : k = k0
      · simp [mapUpdate, h0]
      · simp [mapUpdate, h0, ih]

theorem mapGet_consistent {κ α : Type} [DecidableEq κ] (m : List (κ × α))
    (hk : (m.map Prod.fst).Nodup) : ∀ p ∈ m, mapGet m p.1 = some p.2 := by
  induction m with
  | nil => simp
  | cons e rest ih =>
      obtain ⟨k0, v0⟩ := e
      simp only [List.map_cons, List.nodup_cons] at hk
      intro p hp
      rcases List.mem_cons.mp hp with h1 | h1
      · subst h1
        simp [mapGet]
      · have hne : p.1 ≠ k0 := by
          intro hEq
          apply hk.1
          rw [← hEq]
          exact List.mem_map.mpr ⟨p, h1, rfl⟩
        simp [mapGet, hne]
        exact ih hk.2 p h1

theorem mapSet_get_same {κ α : Type} [DecidableEq κ] (m : List (κ × α)) (k : κ) (v : α)
    (h : mapGet m k = some v) : mapSet m k v = m := by
  induction m with
  | nil => simp [mapGet] at h
  | cons e rest ih =>
      obtain ⟨k0, v0⟩ := e
      by_cases h0 : k = k0
      · simp [mapGet, h0] at h
        simp [mapSet, h0, h]
      · simp [mapGet, h0] at h
        simp [mapSet, h0, ih h]

theorem mem_setAdd {s : List Nat} {x c : Nat} : x ∈ setAdd s c ↔ x = c ∨ x ∈ s := by
  by_cases h : c ∈ s
  · simp only [setAdd, if_pos h]
    constructor
    · exact Or.inr
    · intro hx
      rcases hx with hx | hx
      · subst hx
        exact h
      · exact hx
  · simp [setAdd, h, or_comm]

theorem setAdd_nodup {s : List Nat} (c : Nat) (h : s.Nodup) : (setAdd s c).Nodup := by
  by_cases hc : c ∈ s
  · simpa [setAdd, hc] using h
  · simp [setAdd, hc, List.nodup_append, h]

theorem setAdd_ne_nil (s : List Nat) (c : Nat) : setAdd s c ≠ [] := by
  by_cases hc : c ∈ s
  · simp [setAdd, hc]
    intro hnil
    subst hnil
    simp at hc
  · simp [setAdd, hc]

theorem nodup_mem_split {l : List Nat} {a : Nat} (ha : a ∈ l) (hd : l.Nodup) :
    ∃ s t, l = s ++ a :: t ∧ a ∉ s ∧ a ∉ t := by
  obtain ⟨s, t, rfl⟩ := List.append_of_mem ha
  rw [List.nodup_append] at hd
  refine ⟨s, t, rfl, ?_, ?_⟩
  · intro hs
    exact hd.2.2 hs (List.mem_cons_self a t)
  · have := hd.2.1
    simp at this
    exact this.1

/- ### Unfolding lemmas for the server operations -/

theorem handleSubscription_userChannels (st : ServerState) (c : Nat) (d w : String) :
    (handleSubscription st c d w).userChannels =
      mapSet st.userChannels d (setAdd ((mapGet st.userChannels d).getD []) c) := rfl

theorem handleSubscription_conns (st : ServerState) (c : Nat) (d w : String) :
    (handleSubscription st c d w).conns =
      mapUpdate st.conns c
        (fun x => { x with droplertId := some d, websiteUrl := some w }) := rfl

theorem setApiKey_userChannels (st : ServerState) (newId : Nat) (k d w : String) :
    (setApiKey st newId k d w).userChannels =
      mapSet st.userChannels d (setAdd ((mapGet st.userChannels d).getD []) newId) := rfl

theorem setApiKey_conns (st : ServerState) (newId : Nat) (k d w : String) :
    (setApiKey st newId k d w).conns =
      st.conns ++ [(newId, ⟨true, some d, some w, false, none⟩)] := rfl

theorem removeConnection_conns (st : ServerState) (c : Nat) :
    (removeConnection st c).conns = st.conns := by
  rcases h1 : mapGet st.conns c with _ | conn
  · simp [removeConnection, h1]
  · rcases h2 : conn.droplertId with _ | d
    · simp [removeConnection, h1, h2]
    · by_cases h3 : d = ""
      · simp [removeConnection, h1, h2, h3]
      · rcases h4 : mapGet st.userChannels d with _ | clients
        · simp [removeConnection, h1, h2, h3, h4]
        · by_cases h5 : clients.erase c = []
          · simp [removeConnection, h1, h2, h3, h4, h5]
          · simp [removeConnection, h1, h2, h3, h4, h5]

theorem removeConnection_apiKeys (st : ServerState) (c : Nat) :
    (removeConnection st c).apiKeys = st.apiKeys := by
  rcases h1 : mapGet st.conns c with _ | conn
  · simp [removeConnection, h1]
  · rcases h2 : conn.droplertId with _ | d
    · simp [removeConnection, h1, h2]
    · by_cases h3 : d = ""
      · simp [removeConnection, h1, h2, h3]
      · rcases h4 : mapGet st.userChannels d with _ | clients
        · simp [removeConnection, h1, h2, h3, h4]
        · by_cases h5 : clients.erase c = []
          · simp [removeConnection, h1, h2, h3, h4, h5]
          · simp [removeConnection, h1, h2, h3, h4, h5]

/-- Full case analysis of `removeConnection`: either a no-op, or the tagged
account's set loses `c` (dropping the whole entry when it empties). -/
theorem removeConnection_cases (st : ServerState) (c : Nat) :
    removeConnection st c = st ∨
    ∃ conn d clients, mapGet st.conns c = some conn ∧ conn.droplertId = some d ∧ d ≠ "" ∧
      mapGet st.userChannels d = some clients ∧
      ((clients.erase c = [] ∧
          removeConnection st c = { st with userChannels := mapDelete st.userChannels d }) ∨
       (clients.erase c ≠ [] ∧
          removeConnection st c =
            { st with userChannels := mapSet st.userChannels d (clients.erase c) })) := by
  rcases h1 : mapGet st.conns c with _ | conn
  · exact Or.inl (by simp [removeConnection, h1])
  · rcases h2 : conn.droplertId with _ | d
    · exact Or.inl (by simp [removeConnection, h1, h2])
    · by_cases h3 : d = ""
      · exact Or.inl (by simp [removeConnection, h1, h2, h3])
      · rcases h4 : mapGet st.userChannels d with _ | clients
        · exact Or.inl (by simp [removeConnection, h1, h2, h3, h4])
        · by_cases h5 : clients.erase c = []
          · exact Or.inr ⟨conn, d, clients, rfl, h2, h3, h4,
              Or.inl ⟨h5, by simp [removeConnection, h1, h2, h3, h4, h5]⟩⟩
          · exact Or.inr ⟨conn, d, clients, rfl, h2, h3, h4,
              Or.inr ⟨h5, by simp [removeConnection, h1, h2, h3, h4, h5]⟩⟩

theorem mapGet_mapDelete_self {κ α : Type} [DecidableEq κ] (m : List (κ × α)) (k : κ)
    (h : (m.map Prod.fst).Nodup) : mapGet (mapDelete m k) k = none := by
  rw [mapGet_none_iff, keys_mapDelete]
  exact h.not_mem_erase

/-- Membership in another client's set survives `removeConnection`. -/
theorem removeConnection_mem_preserved (st : ServerState) (c x : Nat) (a : String)
    (hne : x ≠ c) (hx : x ∈ chanList st a) : x ∈ chanList (removeConnection st c) a := by
  rcases removeConnection_cases st c with heq | ⟨conn, d, clients, h1, h2, h3, h4, hcase⟩
  · rw [heq]
    exact hx
  · rcases hcase with ⟨h5, heq⟩ | ⟨h5, heq⟩
    · by_cases ha : a = d
      · subst ha
        unfold chanList at hx
        rw [h4] at hx
        have : x ∈ clients.erase c := (List.mem_erase_of_ne hne).mpr (by simpa using hx)
        rw [h5] at this
        simp at this
      · rw [heq]
        unfold chanList
        rw [mapGet_mapDelete_ne _ _ _ ha]
        exact hx
    · by_cases ha : a = d
      · subst ha
        rw [heq]
        unfold chanList at hx ⊢
        rw [h4] at hx
        rw [mapGet_mapSet_self]
        simp only [Option.getD_some] at hx ⊢
        exact (List.mem_erase_of_ne hne).mpr hx
      · rw [heq]
        unfold chanList
        rw [mapGet_mapSet_ne _ _ _ _ ha]
        exact hx

/-- `removeConnection` never adds a membership (given unique map keys). -/
theorem removeConnection_no_new_mem (st : ServerState) (c x : Nat) (a : String)
    (hk : (st.userChannels.map Prod.fst).Nodup)
    (hx : x ∉ chanList st a) : x ∉ chanList (removeConnection st c) a := by
  rcases removeConnection_cases st c with heq | ⟨conn, d, clients, h1, h2, h3, h4, hcase⟩
  · rw [heq]
    exact hx
  · rcases hcase with ⟨h5, heq⟩ | ⟨h5, heq⟩
    · rw [heq]
      by_cases ha : a = d
      · subst ha
        unfold chanList
        rw [mapGet_mapDelete_self _ _ hk]
        simp
      · unfold chanList
        rw [mapGet_mapDelete_ne _ _ _ ha]
        exact hx
    · rw [heq]
      by_cases ha : a = d
      · subst ha
        unfold chanList at hx ⊢
        rw [h4] at hx
        rw [mapGet_mapSet_self]
        simp only [Option.getD_some] at hx ⊢
        intro hmem
        exact hx (List.mem_of_mem_erase hmem)
      · unfold chanList
        rw [mapGet_mapSet_ne _ _ _ _ ha]
        exact hx

/- ### Preservation of the structural channel invariant -/

theorem chanInv_mapSet_setAdd (L : List (String × List Nat)) (d : String) (c : Nat)
    (h : ChanInv L) : ChanInv (mapSet L d (setAdd ((mapGet L d).getD []) c)) := by
  constructor
  · rcases hL : mapGet L d with _ | cur
    · have hnot : d ∉ L.map Prod.fst := (mapGet_none_iff L d).mp hL
      rw [keys_mapSet_of_not_mem L d _ hnot]
      rw [List.nodup_append]
      refine ⟨h.keys, List.nodup_singleton d, ?_⟩
      intro x hx hx1
      simp at hx1
      subst hx1
      exact hnot hx
    · have hmem : d ∈ L.map Prod.fst := by
        by_contra hnot
        rw [(mapGet_none_iff L d).mpr hnot] at hL
        cases hL
      rw [keys_mapSet_of_mem L d _ hmem]
      exact h.keys
  · intro a l hget
    by_cases ha : a = d
    · subst ha
      rw [mapGet_mapSet_self] at hget
      have hl := Option.some.inj hget
      subst hl
      apply setAdd_nodup
      rcases hL : mapGet L a with _ | cur
      · simp [hL]
      · simp [hL]
        exact h.nodups a cur hL
    · rw [mapGet_mapSet_ne _ _ _ _ ha] at hget
      exact h.nodups a l hget
  · intro a l hget
    by_cases ha : a = d
    · subst ha
      rw [mapGet_mapSet_self] at hget
      have hl := Option.some.inj hget
      subst hl
      exact setAdd_ne_nil _ _
    · rw [mapGet_mapSet_ne _ _ _ _ ha] at hget
      exact h.nonempty a l hget

theorem chanInv_removeConnection (st : ServerState) (c : Nat)
    (h : ChanInv st.userChannels) : ChanInv (removeConnection st c).userChannels := by
  rcases removeConnection_cases st c with heq | ⟨conn, d, clients, h1, h2, h3, h4, hcase⟩
  · rw [heq]
    exact h
  · rcases hcase with ⟨h5, heq⟩ | ⟨h5, heq⟩
    · rw [heq]
      constructor
      · rw [keys_mapDelete]
        exact h.keys.erase d
      · intro a l hget
        by_cases ha : a = d
        · subst ha
          rw [mapGet_mapDelete_self _ _ h.keys] at hget
          cases hget
        · rw [mapGet_mapDelete_ne _ _ _ ha] at hget
          exact h.nodups a l hget
      · intro a l hget
        by_cases ha : a = d
        · subst ha
          rw [mapGet_mapDelete_self _ _ h.keys] at hget
          cases hget
        · rw [mapGet_mapDelete_ne _ _ _ ha] at hget
          exact h.nonempty a l hget
    · rw [heq]
      constructor
      · have hmem : d ∈ st.userChannels.map Prod.fst := by
          by_contra hnot
          rw [(mapGet_none_iff _ d).mpr hnot] at h4
          cases h4
        rw [keys_mapSet_of_mem _ d _ hmem]
        exact h.keys
      · intro a l hget
        by_cases ha : a = d
        · subst ha
          rw [mapGet_mapSet_self] at hget
          have hl := Option.some.inj hget
          subst hl
          exact (h.nodups a clients h4).erase c
        · rw [mapGet_mapSet_ne _ _ _ _ ha] at hget
          exact h.nodups a l hget
      · intro a l hget
        by_cases ha : a = d
        · subst ha
          rw [mapGet_mapSet_self] at hget
          have hl := Option.some.inj hget
          subst hl
          exact h5
        · rw [mapGet_mapSet_ne _ _ _ _ ha] at hget
          exact h.nonempty a l hget

/- ### Preservation of the tagging invariant -/

theorem tagInv_handleConnection (st : ServerState) (c : Nat) (h : TagInv st) :
    TagInv (handleConnection st c) := by
  intro a l x hget hx
  obtain ⟨cx, hcx, hdx⟩ := h a l x hget hx
  exact ⟨cx, mapGet_append_left _ _ _ _ hcx, hdx⟩

theorem tagInv_mapUpdate_keepTag (st : ServerState) (c : Nat) (f : WebSocketClient → WebSocketClient)
    (hf : ∀ x, (f x).droplertId = x.droplertId) (h : TagInv st) :
    TagInv { st with conns := mapUpdate st.conns c f } := by
  intro a l x hget hx
  obtain ⟨cx, hcx, hdx⟩ := h a l x hget hx
  by_cases hxc : x = c
  · subst hxc
    refine ⟨f cx, ?_, by rw [hf]; exact hdx⟩
    show mapGet (mapUpdate st.conns x f) x = some (f cx)
    rw [mapGet_mapUpdate_self, hcx]
    rfl
  · refine ⟨cx, ?_, hdx⟩
    show mapGet (mapUpdate st.conns c f) x = some cx
    rw [mapGet_mapUpdate_ne _ _ _ _ hxc]
    exact hcx

theorem tagInv_handleSubscription (st : ServerState) (c : Nat) (d w : String)
    (conn : WebSocketClient) (hc : mapGet st.conns c = some conn)
    (hnr : conn.droplertId = none ∨ conn.droplertId = some d) (h : TagInv st) :
    TagInv (handleSubscription st c d w) := by
  intro a l x hget hx
  rw [handleSubscription_userChannels] at hget
  by_cases ha : a = d
  · subst ha
    rw [mapGet_mapSet_self] at hget
    have hl := Option.some.inj hget
    subst hl
    rcases mem_setAdd.mp hx with rfl | hxmem
    · refine ⟨{ conn with droplertId := some a, websiteUrl := some w }, ?_, rfl⟩
      rw [handleSubscription_conns, mapGet_mapUpdate_self, hc]
      rfl
    · rcases hcur : mapGet st.userChannels a with _ | cur
      · rw [hcur] at hxmem
        simp at hxmem
      · rw [hcur] at hxmem
        simp only [Option.getD_some] at hxmem
        obtain ⟨cx, hcx, hdx⟩ := h a cur x hcur hxmem
        by_cases hxc : x = c
        · subst hxc
          refine ⟨{ conn with droplertId := some a, websiteUrl := some w }, ?_, rfl⟩
          rw [handleSubscription_conns, mapGet_mapUpdate_self, hc]
          rfl
        · refine ⟨cx, ?_, hdx⟩
          rw [handleSubscription_conns, mapGet_mapUpdate_ne _ _ _ _ hxc]
          exact hcx
  · rw [mapGet_mapSet_ne _ _ _ _ ha] at hget
    obtain ⟨cx, hcx, hdx⟩ := h a l x hget hx
    by_cases hxc : x = c
    · subst hxc
      rw [hc] at hcx
      have := Option.some.inj hcx
      subst this
      rcases hnr with hnone | hsome
      · rw [hnone] at hdx
        cases hdx
      · rw [hsome] at hdx
        exact absurd (Option.some.inj hdx) (fun hEq => ha hEq.symm)
    · refine ⟨cx, ?_, hdx⟩
      rw [handleSubscription_conns, mapGet_mapUpdate_ne _ _ _ _ hxc]
      exact hcx

theorem tagInv_setApiKey (st : ServerState) (newId : Nat) (k d w : String)
    (hfresh : mapGet st.conns newId = none) (h : TagInv st) :
    TagInv (setApiKey st newId k d w) := by
  intro a l x hget hx
  rw [setApiKey_userChannels] at hget
  by_cases ha : a = d
  · subst ha
    rw [mapGet_mapSet_self] at hget
    have hl := Option.some.inj hget
    subst hl
    rcases mem_setAdd.mp hx with rfl | hxmem
    · refine ⟨⟨true, some a, some w, false, none⟩, ?_, rfl⟩
      rw [setApiKey_conns, mapGet_append_none _ _ _ hfresh]
      simp [mapGet]
    · rcases hcur : mapGet st.userChannels a with _ | cur
      · rw [hcur] at hxmem
        simp at hxmem
      · rw [hcur] at hxmem
        simp only [Option.getD_some] at hxmem
        obtain ⟨cx, hcx, hdx⟩ := h a cur x hcur hxmem
        refine ⟨cx, ?_, hdx⟩
        rw [setApiKey_conns]
        exact mapGet_append_left _ _ _ _ hcx
  · rw [mapGet_mapSet_ne _ _ _ _ ha] at hget
    obtain ⟨cx, hcx, hdx⟩ := h a l x hget hx
    refine ⟨cx, ?_, hdx⟩
    rw [setApiKey_conns]
    exact mapGet_append_left _ _ _ _ hcx

theorem tagInv_removeConnection (st : ServerState) (c : Nat)
    (hchan : ChanInv st.userChannels) (h : TagInv st) :
    TagInv (removeConnection st c) := by
  have hconns := removeConnection_conns st c
  rcases removeConnection_cases st c with heq | ⟨conn, d, clients, h1, h2, h3, h4, hcase⟩
  · rw [heq]
    exact h
  · rcases hcase with ⟨h5, heq⟩ | ⟨h5, heq⟩
    · intro a l x hget hx
      rw [heq] at hget
      by_cases ha : a = d
      · subst ha
        rw [mapGet_mapDelete_self _ _ hchan.keys] at hget
        cases hget
      · rw [mapGet_mapDelete_ne _ _ _ ha] at hget
        obtain ⟨cx, hcx, hdx⟩ := h a l x hget hx
        exact ⟨cx, by rw [hconns]; exact hcx, hdx⟩
    · intro a l x hget hx
      rw [heq] at hget
      by_cases ha : a = d
      · subst ha
        rw [mapGet_mapSet_self] at hget
        have hl := Option.some.inj hget
        subst hl
        have hx1 : x ∈ clients := List.mem_of_mem_erase hx
        obtain ⟨cx, hcx, hdx⟩ := h a clients x h4 hx1
        exact ⟨cx, by rw [hconns]; exact hcx, hdx⟩
      · rw [mapGet_mapSet_ne _ _ _ _ ha] at hget
        obtain ⟨cx, hcx, hdx⟩ := h a l x hget hx
        exact ⟨cx, by rw [hconns]; exact hcx, hdx⟩

/- ### The cleanup sweep -/

theorem cleanupStep_none (s : ServerState) (ps : List Nat) (c : Nat)
    (h : mapGet s.conns c = none) : cleanupStep (s, ps) c = (s, ps) := by
  simp [cleanupStep, h]

theorem cleanupStep_dead (s : ServerState) (ps : List Nat) (c : Nat) (conn : WebSocketClient)
    (h : mapGet s.conns c = some conn) (ha : conn.isAlive = false) :
    cleanupStep (s, ps) c = (removeConnection s c, ps) := by
  simp [cleanupStep, h, ha]

theorem cleanupStep_live_ws (s : ServerState) (ps : List Nat) (c : Nat) (conn : WebSocketClient)
    (h : mapGet s.conns c = some conn) (ha : conn.isAlive = true) (hw : conn.isWebSocket = true) :
    cleanupStep (s, ps) c =
      ({ s with conns := mapUpdate s.conns c (fun x => { x with isAlive := false }) },
        ps ++ [c]) := by
  simp [cleanupStep, h, ha, hw]

theorem cleanupStep_live_nonws (s : ServerState) (ps : List Nat) (c : Nat)
    (conn : WebSocketClient) (h : mapGet s.conns c = some conn) (ha : conn.isAlive = true)
    (hw : conn.isWebSocket = false) : cleanupStep (s, ps) c = (s, ps) := by
  simp [cleanupStep, h, ha, hw]

/-- A state property preserved by every `cleanupStep` is preserved by the
whole sweep fold. -/
theorem cleanupFold_pres (P : ServerState → Prop)
    (hstep : ∀ s ps c, P s → P (cleanupStep (s, ps) c).1) :
    ∀ (ids : List Nat) (s : ServerState) (ps : List Nat),
      P s → P (ids.foldl cleanupStep (s, ps)).1 := by
  intro ids
  induction ids with
  | nil =>
      intro s ps h
      exact h
  | cons i rest ih =>
      intro s ps h
      have h1 := hstep s ps i h
      rcases hcs : cleanupStep (s, ps) i with ⟨s1, ps1⟩
      rw [hcs] at h1
      rw [List.foldl_cons, hcs]
      exact ih s1 ps1 h1

theorem chanInv_cleanupStep (s : ServerState) (ps : List Nat) (c : Nat)
    (h : ChanInv s.userChannels) : ChanInv (cleanupStep (s, ps) c).1.userChannels := by
  rcases h1 : mapGet s.conns c with _ | conn
  · rw [cleanupStep_none s ps c h1]
    exact h
  · rcases ha : conn.isAlive with _ | _
    · rw [cleanupStep_dead s ps c conn h1 ha]
      exact chanInv_removeConnection s c h
    · rcases hw : conn.isWebSocket with _ | _
      · rw [cleanupStep_live_nonws s ps c conn h1 ha hw]
        exact h
      · rw [cleanupStep_live_ws s ps c conn h1 ha hw]
        exact h

theorem tagInv_cleanupStep (s : ServerState) (ps : List Nat) (c : Nat)
    (hchan : ChanInv s.userChannels) (h : TagInv s) : TagInv (cleanupStep (s, ps) c).1 := by
  rcases h1 : mapGet s.conns c with _ | conn
  · rw [cleanupStep_none s ps c h1]
    exact h
  · rcases ha : conn.isAlive with _ | _
    · rw [cleanupStep_dead s ps c conn h1 ha]
      exact tagInv_removeConnection s c hchan h
    · rcases hw : conn.isWebSocket with _ | _
      · rw [cleanupStep_live_nonws s ps c conn h1 ha hw]
        exact h
      · rw [cleanupStep_live_ws s ps c conn h1 ha hw]
        exact tagInv_mapUpdate_keepTag s c _ (fun x => rfl) h

/- ### Invariants hold in every reachable state -/

theorem stepNR_step {st st' : ServerState} (h : StepNR st st') : Step st st' := by
  cases h with
  | connect c hfresh => exact Step.connect st c hfresh
  | subscribe c d w conn hc hws hnr => exact Step.subscribe st c d w conn hc hws
  | setKey newId k d w hfresh hk => exact Step.setKey st newId k d w hfresh hk
  | pong c conn hc hws => exact Step.pong st c conn hc hws
  | socketClosed c conn hc hws => exact Step.socketClosed st c conn hc hws
  | closeEvent c conn hc hws => exact Step.closeEvent st c conn hc hws
  | sweep => exact Step.sweep st

theorem chanInv_step {st st' : ServerState} (hs : Step st st')
    (h : ChanInv st.userChannels) : ChanInv st'.userChannels := by
  cases hs with
  | connect c hfresh => exact h
  | subscribe c d w conn hc hws =>
      rw [handleSubscription_userChannels]
      exact chanInv_mapSet_setAdd _ _ _ h
  | setKey newId k d w hfresh hk =>
      rw [setApiKey_userChannels]
      exact chanInv_mapSet_setAdd _ _ _ h
  | pong c conn hc hws => exact h
  | socketClosed c conn hc hws => exact h
  | closeEvent c conn hc hws => exact chanInv_removeConnection st c h
  | sweep =>
      exact cleanupFold_pres (fun s => ChanInv s.userChannels)
        (fun s ps c hp => chanInv_cleanupStep s ps c hp) (sweepSnapshot st) st [] h

theorem reach_chanInv {st : ServerState} (hr : Reach st) : ChanInv st.userChannels := by
  induction hr with
  | refl =>
      constructor
      · exact List.nodup_nil
      · intro a l hget
        simp [initState, mapGet] at hget
      · intro a l hget
        simp [initState, mapGet] at hget
  | tail hsteps hstep ih => exact chanInv_step hstep ih

theorem goodNR_step {st st' : ServerState} (hs : StepNR st st')
    (h : ChanInv st.userChannels ∧ TagInv st) :
    ChanInv st'.userChannels ∧ TagInv st' := by
  refine ⟨chanInv_step (stepNR_step hs) h.1, ?_⟩
  cases hs with
  | connect c hfresh => exact tagInv_handleConnection st c h.2
  | subscribe c d w conn hc hws hnr => exact tagInv_handleSubscription st c d w conn hc hnr h.2
  | setKey newId k d w hfresh hk => exact tagInv_setApiKey st newId k d w hfresh h.2
  | pong c conn hc hws => exact tagInv_mapUpdate_keepTag st c _ (fun x => rfl) h.2
  | socketClosed c conn hc hws => exact tagInv_mapUpdate_keepTag st c _ (fun x => rfl) h.2
  | closeEvent c conn hc hws => exact tagInv_removeConnection st c h.1 h.2
  | sweep =>
      have hcomb :
          ∀ (ids : List Nat) (s : ServerState) (ps : List Nat),
            (ChanInv s.userChannels ∧ TagInv s) →
            (ChanInv (ids.foldl cleanupStep (s, ps)).1.userChannels ∧
              TagInv (ids.foldl cleanupStep (s, ps)).1) :=
        cleanupFold_pres (fun s => ChanInv s.userChannels ∧ TagInv s)
          (fun s ps c hp => ⟨chanInv_cleanupStep s ps c hp.1, tagInv_cleanupStep s ps c hp.1 hp.2⟩)
      exact (hcomb (sweepSnapshot st) st [] h).2

theorem reachNR_good {st : ServerState} (hr : ReachNR st) :
    ChanInv st.userChannels ∧ TagInv st := by
  induction hr with
  | refl =>
      refine ⟨⟨List.nodup_nil, ?_, ?_⟩, ?_⟩
      · intro a l hget
        simp [initState, mapGet] at hget
      · intro a l hget
        simp [initState, mapGet] at hget
      · intro a l x hget hx
        simp [initState, mapGet] at hget
  | tail hsteps hstep ih => exact goodNR_step hstep ih

theorem reachNR_reach {st : ServerState} (hr : ReachNR st) : Reach st := by
  induction hr with
  | refl => exact Relation.ReflTransGen.refl
  | tail hsteps hstep ih => exact Relation.ReflTransGen.tail ih (stepNR_step hstep)

/- ### Frame lemmas for the sweep fold -/

theorem cleanupStep_pings (s : ServerState) (ps : List Nat) (i : Nat) :
    ∃ e, (cleanupStep (s, ps) i).2 = ps ++ e := by
  rcases h1 : mapGet s.conns i with _ | conn
  · exact ⟨[], by rw [cleanupStep_none s ps i h1]; simp⟩
  · rcases ha : conn.isAlive with _ | _
    · exact ⟨[], by rw [cleanupStep_dead s ps i conn h1 ha]; simp⟩
    · rcases hw : conn.isWebSocket with _ | _
      · exact ⟨[], by rw [cleanupStep_live_nonws s ps i conn h1 ha hw]; simp⟩
      · exact ⟨[i], by rw [cleanupStep_live_ws s ps i conn h1 ha hw]⟩

theorem cleanupFold_pings :
    ∀ (ids : List Nat) (s : ServerState) (ps : List Nat),
      ∃ e, (ids.foldl cleanupStep (s, ps)).2 = ps ++ e := by
  intro ids
  induction ids with
  | nil =>
      intro s ps
      exact ⟨[], by simp⟩
  | cons i rest ih =>
      intro s ps
      obtain ⟨e1, he1⟩ := cleanupStep_pings s ps i
      rcases hcs : cleanupStep (s, ps) i with ⟨s1, ps1⟩
      rw [hcs] at he1
      obtain ⟨e2, he2⟩ := ih s1 ps1
      refine ⟨e1 ++ e2, ?_⟩
      rw [List.foldl_cons, hcs, he2]
      have he1a : ps1 = ps ++ e1 := he1
      rw [he1a, List.append_assoc]

theorem cleanupStep_conns_frame (s : ServerState) (ps : List Nat) (i x : Nat) (hne : x ≠ i) :
    mapGet (cleanupStep (s, ps) i).1.conns x = mapGet s.conns x := by
  rcases h1 : mapGet s.conns i with _ | conn
  · rw [cleanupStep_none s ps i h1]
  · rcases ha : conn.isAlive with _ | _
    · rw [cleanupStep_dead s ps i conn h1 ha]
      exact congrArg (fun l => mapGet l x) (removeConnection_conns s i)
    · rcases hw : conn.isWebSocket with _ | _
      · rw [cleanupStep_live_nonws s ps i conn h1 ha hw]
      · rw [cleanupStep_live_ws s ps i conn h1 ha hw]
        exact mapGet_mapUpdate_ne _ _ _ _ hne

theorem cleanupStep_mem_frame (s : ServerState) (ps : List Nat) (i x : Nat) (a : String)
    (hne : x ≠ i) (hx : x ∈ chanList s a) : x ∈ chanList (cleanupStep (s, ps) i).1 a := by
  rcases h1 : mapGet s.conns i with _ | conn
  · rw [cleanupStep_none s ps i h1]
    exact hx
  · rcases ha : conn.isAlive with _ | _
    · rw [cleanupStep_dead s ps i conn h1 ha]
      exact removeConnection_mem_preserved s i x a hne hx
    · rcases hw : conn.isWebSocket with _ | _
      · rw [cleanupStep_live_nonws s ps i conn h1 ha hw]
        exact hx
      · rw [cleanupStep_live_ws s ps i conn h1 ha hw]
        exact hx

theorem cleanupStep_no_new_mem (s : ServerState) (ps : List Nat) (i x : Nat) (a : String)
    (hk : (s.userChannels.map Prod.fst).Nodup) (hx : x ∉ chanList s a) :
    x ∉ chanList (cleanupStep (s, ps) i).1 a := by
  rcases h1 : mapGet s.conns i with _ | conn
  · rw [cleanupStep_none s ps i h1]
    exact hx
  · rcases ha : conn.isAlive with _ | _
    · rw [cleanupStep_dead s ps i conn h1 ha]
      exact removeConnection_no_new_mem s i x a hk hx
    · rcases hw : conn.isWebSocket with _ | _
      · rw [cleanupStep_live_nonws s ps i conn h1 ha hw]
        exact hx
      · rw [cleanupStep_live_ws s ps i conn h1 ha hw]
        exact hx

theorem cleanupFold_frame (x : Nat) :
    ∀ (ids : List Nat) (s : ServerState) (ps : List Nat), x ∉ ids →
      (∀ a, x ∈ chanList s a → x ∈ chanList (ids.foldl cleanupStep (s, ps)).1 a) ∧
      mapGet (ids.foldl cleanupStep (s, ps)).1.conns x = mapGet s.conns x := by
  intro ids
  induction ids with
  | nil =>
      intro s ps hnotin
      exact ⟨fun a hx => hx, rfl⟩
  | cons i rest ih =>
      intro s ps hnotin
      have hne : x ≠ i := fun hEq => hnotin (hEq ▸ List.mem_cons_self i rest)
      have hrest : x ∉ rest := fun hmm => hnotin (List.mem_cons_of_mem i hmm)
      rcases hcs : cleanupStep (s, ps) i with ⟨s1, ps1⟩
      have hmem1 : ∀ a, x ∈ chanList s a → x ∈ chanList s1 a := by
        intro a hx
        have := cleanupStep_mem_frame s ps i x a hne hx
        rw [hcs] at this
        exact this
      have hconn1 : mapGet s1.conns x = mapGet s.conns x := by
        have := cleanupStep_conns_frame s ps i x hne
        rw [hcs] at this
        exact this
      have hih := ih s1 ps1 hrest
      constructor
      · intro a hx
        rw [List.foldl_cons, hcs]
        exact hih.1 a (hmem1 a hx)
      · rw [List.foldl_cons, hcs, hih.2, hconn1]

theorem cleanupFold_no_new_mem :
    ∀ (ids : List Nat) (s : ServerState) (ps : List Nat), ChanInv s.userChannels →
      ∀ (x : Nat) (a : String), x ∉ chanList s a →
        x ∉ chanList (ids.foldl cleanupStep (s, ps)).1 a := by
  intro ids
  induction ids with
  | nil =>
      intro s ps hchan x a hx
      exact hx
  | cons i rest ih =>
      intro s ps hchan x a hx
      rcases hcs : cleanupStep (s, ps) i with ⟨s1, ps1⟩
      have hchan1 : ChanInv s1.userChannels := by
        have := chanInv_cleanupStep s ps i hchan
        rw [hcs] at this
        exact this
      have hx1 : x ∉ chanList s1 a := by
        have := cleanupStep_no_new_mem s ps i x a hchan.keys hx
        rw [hcs] at this
        exact this
      rw [List.foldl_cons, hcs]
      exact ih s1 ps1 hchan1 x a hx1

/- ### Splitting the sweep snapshot at a registered client -/

theorem mapGet_some_mem {κ α : Type} [DecidableEq κ] (m : List (κ × α)) (k : κ) (v : α)
    (h : mapGet m k = some v) : (k, v) ∈ m := by
  induction m with
  | nil => cases h
  | cons e rest ih =>
      obtain ⟨k0, v0⟩ := e
      by_cases h0 : k = k0
      · subst h0
        simp [mapGet] at h
        subst h
        exact List.mem_cons_self _ _
      · simp [mapGet, h0] at h
        exact List.mem_cons_of_mem _ (ih h)

theorem chanList_mem_some (s : ServerState) (a : String) (c : Nat) (h : c ∈ chanList s a) :
    ∃ l, mapGet s.userChannels a = some l ∧ c ∈ l := by
  unfold chanList at h
  rcases hq : mapGet s.userChannels a with _ | l
  · rw [hq] at h
    simp at h
  · rw [hq] at h
    exact ⟨l, rfl, by simpa using h⟩

theorem tagInv_not_mem_other (s : ServerState) (ht : TagInv s) (c : Nat)
    (conn : WebSocketClient) (d a : String) (hc : mapGet s.conns c = some conn)
    (htagc : conn.droplertId = some d) (ha : a ≠ d) : c ∉ chanList s a := by
  intro hin
  obtain ⟨l, hq, hl⟩ := chanList_mem_some s a c hin
  obtain ⟨cx, hcx, hdx⟩ := ht a l c hq hl
  rw [hc] at hcx
  have heq := Option.some.inj hcx
  subst heq
  rw [htagc] at hdx
  exact ha (Option.some.inj hdx).symm

theorem sweepSnapshot_nodup (st : ServerState) (hchan : ChanInv st.userChannels)
    (htag : TagInv st) : (sweepSnapshot st).Nodup := by
  unfold sweepSnapshot
  rw [List.nodup_flatten]
  constructor
  · intro l hl
    obtain ⟨e, he, rfl⟩ := List.mem_map.mp hl
    exact hchan.nodups e.1 e.2 (mapGet_consistent _ hchan.keys e he)
  · rw [List.pairwise_map]
    have hkeys : st.userChannels.Pairwise (fun e1 e2 => e1.1 ≠ e2.1) := by
      have hk := hchan.keys
      rw [List.Nodup, List.pairwise_map] at hk
      exact hk
    refine hkeys.imp_of_mem ?_
    intro e1 e2 he1 he2 hne x hx1 hx2
    have hg1 := mapGet_consistent _ hchan.keys e1 he1
    have hg2 := mapGet_consistent _ hchan.keys e2 he2
    obtain ⟨c1, hc1, hd1⟩ := htag e1.1 e1.2 x hg1 hx1
    obtain ⟨c2, hc2, hd2⟩ := htag e2.1 e2.2 x hg2 hx2
    rw [hc1] at hc2
    have heq := Option.some.inj hc2
    subst heq
    rw [hd1] at hd2
    exact hne (Option.some.inj hd2)

theorem sweepSnapshot_split (st : ServerState) (hchan : ChanInv st.userChannels)
    (htag : TagInv st) (c : Nat) (d : String) (hmem : c ∈ chanList st d) :
    ∃ pre post, sweepSnapshot st = pre ++ c :: post ∧ c ∉ pre ∧ c ∉ post := by
  have hnd := sweepSnapshot_nodup st hchan htag
  obtain ⟨l, hq, hl⟩ := chanList_mem_some st d c hmem
  have hc : c ∈ sweepSnapshot st := by
    unfold sweepSnapshot
    exact List.mem_flatten.mpr ⟨l, List.mem_map.mpr ⟨(d, l), mapGet_some_mem _ _ _ hq, rfl⟩, hl⟩
  exact nodup_mem_split hc hnd

/- ### Effect of one sweep on a single registered client -/

theorem cleanup_live_ws (st : ServerState) (hchan : ChanInv st.userChannels)
    (htag : TagInv st) (c : Nat) (conn : WebSocketClient) (d : String)
    (hc : mapGet st.conns c = some conn) (halive : conn.isAlive = true)
    (hws : conn.isWebSocket = true) (hmem : c ∈ chanList st d) :
    mapGet (cleanup st).1.conns c = some { conn with isAlive := false } ∧
    c ∈ chanList (cleanup st).1 d ∧ c ∈ (cleanup st).2 := by
  obtain ⟨pre, post, hsplit, hcpre, hcpost⟩ := sweepSnapshot_split st hchan htag c d hmem
  unfold cleanup
  rw [hsplit, List.foldl_append]
  rcases hacc1 : pre.foldl cleanupStep (st, []) with ⟨s1, ps1⟩
  have hframe := cleanupFold_frame c pre st [] hcpre
  rw [hacc1] at hframe
  have hc1 : mapGet s1.conns c = some conn := hframe.2.trans hc
  have hmem1 : c ∈ chanList s1 d := hframe.1 d hmem
  rw [List.foldl_cons, cleanupStep_live_ws s1 ps1 c conn hc1 halive hws]
  have hframe2 := cleanupFold_frame c post
    { s1 with conns := mapUpdate s1.conns c (fun x => { x with isAlive := false }) }
    (ps1 ++ [c]) hcpost
  refine ⟨?_, ?_, ?_⟩
  · rw [hframe2.2]
    show mapGet (mapUpdate s1.conns c _) c = _
    rw [mapGet_mapUpdate_self, hc1]
    rfl
  · exact hframe2.1 d hmem1
  · obtain ⟨e, he⟩ := cleanupFold_pings post
      { s1 with conns := mapUpdate s1.conns c (fun x => { x with isAlive := false }) }
      (ps1 ++ [c])
    rw [he]
    simp

theorem removeConnection_evicts (s1 : ServerState) (hchan : ChanInv s1.userChannels)
    (htag : TagInv s1) (c : Nat) (conn : WebSocketClient) (d : String)
    (hc1 : mapGet s1.conns c = some conn) (htagc : conn.droplertId = some d) (hd : d ≠ "")
    (hmem1 : c ∈ chanList s1 d) : ∀ a, c ∉ chanList (removeConnection s1 c) a := by
  obtain ⟨clients, hq, hcm⟩ := chanList_mem_some s1 d c hmem1
  intro a
  by_cases hcase : clients.erase c = []
  · have hrc : removeConnection s1 c = { s1 with userChannels := mapDelete s1.userChannels d } := by
      simp [removeConnection, hc1, htagc, hd, hq, hcase]
    rw [hrc]
    by_cases ha : a = d
    · subst ha
      unfold chanList
      rw [mapGet_mapDelete_self _ _ hchan.keys]
      simp
    · unfold chanList
      rw [mapGet_mapDelete_ne _ _ _ ha]
      exact tagInv_not_mem_other s1 htag c conn d a hc1 htagc ha
  · have hrc : removeConnection s1 c =
        { s1 with userChannels := mapSet s1.userChannels d (clients.erase c) } := by
      simp [removeConnection, hc1, htagc, hd, hq, hcase]
    rw [hrc]
    by_cases ha : a = d
    · subst ha
      unfold chanList
      rw [mapGet_mapSet_self]
      simp only [Option.getD_some]
      exact (hchan.nodups a clients hq).not_mem_erase
    · unfold chanList
      rw [mapGet_mapSet_ne _ _ _ _ ha]
      exact tagInv_not_mem_other s1 htag c conn d a hc1 htagc ha

theorem cleanup_dead (st : ServerState) (hchan : ChanInv st.userChannels)
    (htag : TagInv st) (c : Nat) (conn : WebSocketClient) (d : String)
    (hc : mapGet st.conns c = some conn) (hdead : conn.isAlive = false)
    (htagc : conn.droplertId = some d) (hd : d ≠ "") (hmem : c ∈ chanList st d) :
    ∀ a, c ∉ chanList (cleanup st).1 a := by
  obtain ⟨pre, post, hsplit, hcpre, hcpost⟩ := sweepSnapshot_split st hchan htag c d hmem
  unfold cleanup
  rw [hsplit, List.foldl_append]
  rcases hacc1 : pre.foldl cleanupStep (st, []) with ⟨s1, ps1⟩
  have hframe := cleanupFold_frame c pre st [] hcpre
  rw [hacc1] at hframe
  have hgood1 : ChanInv s1.userChannels ∧ TagInv s1 := by
    have := cleanupFold_pres (fun s => ChanInv s.userChannels ∧ TagInv s)
      (fun s ps i hp => ⟨chanInv_cleanupStep s ps i hp.1, tagInv_cleanupStep s ps i hp.1 hp.2⟩)
      pre st [] ⟨hchan, htag⟩
    rw [hacc1] at this
    exact this
  have hc1 : mapGet s1.conns c = some conn := hframe.2.trans hc
  have hmem1 : c ∈ chanList s1 d := hframe.1 d hmem
  rw [List.foldl_cons, cleanupStep_dead s1 ps1 c conn hc1 hdead]
  intro a
  exact cleanupFold_no_new_mem post (removeConnection s1 c) ps1
    (chanInv_removeConnection s1 c hgood1.1) c a
    (removeConnection_evicts s1 hgood1.1 hgood1.2 c conn d hc1 htagc hd hmem1 a)

/- ### Dispatch helper lemmas -/

theorem handleNotification_none (st : ServerState) (p : NotificationPayload)
    (h : mapGet st.userChannels p.droplertId = none) :
    handleNotification st p = (NotifyResult.notFound, []) := by
  simp [handleNotification, h]

theorem handleNotification_some (st : ServerState) (p : NotificationPayload)
    (clients : List Nat) (h : mapGet st.userChannels p.droplertId = some clients) :
    handleNotification st p =
      (NotifyResult.success,
        (clients.filter (clientDeliverable st p.websites)).map
          (fun c => (c, OutMsg.notification p.notification))) := by
  simp [handleNotification, h]

theorem clientDeliverable_iff (st : ServerState) (websites : List String) (c : Nat) :
    clientDeliverable st websites c = true ↔
      ∃ conn, mapGet st.conns c = some conn ∧ conn.readyState = some WS_OPEN ∧
        ∃ u, conn.websiteUrl = some u ∧ u ≠ "" ∧ u ∈ websites := by
  rcases h : mapGet st.conns c with _ | conn
  · simp [clientDeliverable, h]
  · rcases hu : conn.websiteUrl with _ | u
    · simp [clientDeliverable, h, hu]
    · simp [clientDeliverable, h, hu, and_assoc]

theorem handleNotification_sends_ids (st : ServerState) (p : NotificationPayload) :
    (handleNotification st p).2.map Prod.fst =
      (chanList st p.droplertId).filter (clientDeliverable st p.websites) := by
  rcases hq : mapGet st.userChannels p.droplertId with _ | clients
  · simp [handleNotification, hq, chanList]
  · simp only [handleNotification, hq, chanList, Option.getD_some, List.map_map]
    exact List.map_id _

theorem handleNotification_success_of_mem (st : ServerState) (p : NotificationPayload)
    (c : Nat) (h : c ∈ chanList st p.droplertId) :
    (handleNotification st p).1 = NotifyResult.success := by
  obtain ⟨l, hq, hl⟩ := chanList_mem_some st p.droplertId c h
  rw [handleNotification_some st p l hq]

theorem mem_sends_iff (st : ServerState) (p : NotificationPayload) (clients : List Nat)
    (c : Nat) (hq : mapGet st.userChannels p.droplertId = some clients) :
    (c, OutMsg.notification p.notification) ∈ (handleNotification st p).2 ↔
      c ∈ clients ∧ clientDeliverable st p.websites c = true := by
  rw [handleNotification_some st p clients hq]
  simp only [List.mem_map, List.mem_filter, Prod.mk.injEq]
  constructor
  · rintro ⟨c1, ⟨hc1, hdel⟩, hEq, _⟩
    subst hEq
    exact ⟨hc1, hdel⟩
  · intro ⟨hc1, hdel⟩
    exact ⟨c, ⟨hc1, hdel⟩, rfl, trivial⟩

/- ### Reachability of the demonstration states -/

theorem reach_stOneConn : Reach stOneConn :=
  Relation.ReflTransGen.single (Step.connect initState 1 rfl)

theorem reachNR_stOneConn : ReachNR stOneConn :=
  Relation.ReflTransGen.single (StepNR.connect initState 1 rfl)

theorem reach_stA : Reach stA :=
  Relation.ReflTransGen.tail reach_stOneConn
    (Step.subscribe stOneConn 1 "A" "u" ⟨true, none, none, true, some WS_OPEN⟩ rfl rfl)

theorem reachNR_stA : ReachNR stA :=
  Relation.ReflTransGen.tail reachNR_stOneConn
    (StepNR.subscribe stOneConn 1 "A" "u" ⟨true, none, none, true, some WS_OPEN⟩ rfl rfl
      (Or.inl rfl))

theorem reach_stO : Reach stO :=
  Relation.ReflTransGen.tail reach_stOneConn
    (Step.subscribe stOneConn 1 "A" "" ⟨true, none, none, true, some WS_OPEN⟩ rfl rfl)

theorem reach_stAB : Reach stAB :=
  Relation.ReflTransGen.tail reach_stA
    (Step.subscribe stA 1 "B" "u" ⟨true, some "A", some "u", true, some WS_OPEN⟩ rfl rfl)

theorem reach_emptyAcct : Reach (registerAll initState "" "u" [1]) :=
  Relation.ReflTransGen.tail reach_stOneConn
    (Step.subscribe stOneConn 1 "" "u" ⟨true, none, none, true, some WS_OPEN⟩ rfl rfl)

/- ### Claim theorems -/

/-- C2 (amended): for a connection `c` registered in account `a`'s set, the
dispatcher forwards the notification body to `c` iff `c`'s transport is open
AND its tagged origin is a NON-EMPTY string that is a member of the target
list (the JS truthiness test on `client.websiteUrl` additionally drops the
empty-string origin); connections failing the check are skipped with the
caller still receiving success. -/
theorem notify_filter_iff (st : ServerState) (p : NotificationPayload) (clients : List Nat)
    (c : Nat) (conn : WebSocketClient)
    (hq : mapGet st.userChannels p.droplertId = some clients)
    (hcm : c ∈ clients) (hc : mapGet st.conns c = some conn) :
    ((c, OutMsg.notification p.notification) ∈ (handleNotification st p).2 ↔
      (conn.readyState = some WS_OPEN ∧
        ∃ u, conn.websiteUrl = some u ∧ u ≠ "" ∧ u ∈ p.websites)) ∧
    (handleNotification st p).1 = NotifyResult.success := by
  constructor
  · rw [mem_sends_iff st p clients c hq]
    constructor
    · intro ⟨_, hdel⟩
      obtain ⟨cn, hcn, hrest⟩ := (clientDeliverable_iff st p.websites c).mp hdel
      rw [hc] at hcn
      have heq := Option.some.inj hcn
      subst heq
      exact hrest
    · intro hcond
      exact ⟨hcm, (clientDeliverable_iff st p.websites c).mpr ⟨conn, hc, hcond⟩⟩
  · rw [handleNotification_some st p clients hq]

/-- C2 witness: in the reachable state `stA`, the open socket 1 tagged with
origin `u` receives the push when `u` is targeted, and the caller gets
success. -/
theorem notify_filter_iff_witness :
    (1, OutMsg.notification demoNotification) ∈
        (handleNotification stA ⟨"A", ["u"], demoNotification⟩).2 ∧
    (handleNotification stA ⟨"A", ["u"], demoNotification⟩).1 = NotifyResult.success := by
  have h := notify_filter_iff stA ⟨"A", ["u"], demoNotification⟩ [1] 1
    ⟨true, some "A", some "u", true, some WS_OPEN⟩ (by decide) (by decide) (by decide)
  exact ⟨h.1.mpr ⟨rfl, "u", rfl, by decide, by decide⟩, h.2⟩

/-- C2 counterexample: socket 1 is reachably subscribed to account `A` with
the EMPTY-STRING origin, its transport is open, and the target list contains
the empty string, yet the dispatcher sends nothing (the claim demands
delivery for every origin string including the empty string). -/
theorem notify_empty_origin_dropped :
    Reach stO ∧
    mapGet stO.conns 1 = some ⟨true, some "A", some "", true, some WS_OPEN⟩ ∧
    1 ∈ chanList stO "A" ∧
    handleNotification stO ⟨"A", [""], demoNotification⟩ = (NotifyResult.success, []) :=
  ⟨reach_stO, by decide, by decide, by decide⟩

/-- C3: in every reachable state, dispatch replies 404 iff the account's
channel entry is absent-or-empty (an empty stored set is in fact unreachable,
so this coincides with plain absence, which is the test the code performs),
the 404 path sends nothing, and once the lookup succeeds the caller gets
success no matter how many clients pass the filter. -/
theorem notify_404_iff (st : ServerState) (hr : Reach st) (p : NotificationPayload) :
    ((handleNotification st p).1 = NotifyResult.notFound ↔
      (mapGet st.userChannels p.droplertId = none ∨
        mapGet st.userChannels p.droplertId = some [])) ∧
    ((handleNotification st p).1 = NotifyResult.notFound → (handleNotification st p).2 = []) ∧
    (∀ clients, mapGet st.userChannels p.droplertId = some clients →
      (handleNotification st p).1 = NotifyResult.success) := by
  have hchan := reach_chanInv hr
  rcases hq : mapGet st.userChannels p.droplertId with _ | clients
  · rw [handleNotification_none st p hq]
    refine ⟨⟨fun _ => Or.inl rfl, fun _ => rfl⟩, fun _ => rfl, ?_⟩
    intro clients hmm
    exact absurd hmm (by simp)
  · rw [handleNotification_some st p clients hq]
    refine ⟨⟨?_, ?_⟩, ?_, fun _ _ => rfl⟩
    · intro hmm
      exact absurd hmm (by simp)
    · intro hmm
      rcases hmm with hmm | hmm
      · exact absurd hmm (by simp)
      · have hcl := Option.some.inj hmm
        exact ((hchan.nonempty p.droplertId clients hq) hcl).elim
    · intro hmm
      exact absurd hmm (by simp)

/-- C3 witness: in the reachable state `stA`, a dispatch to the unknown
account `B` is a 404 with zero sends, while a dispatch to `A` whose target
list matches nothing still succeeds. -/
theorem notify_404_iff_witness :
    (handleNotification stA ⟨"B", ["u"], demoNotification⟩).1 = NotifyResult.notFound ∧
    (handleNotification stA ⟨"B", ["u"], demoNotification⟩).2 = [] ∧
    (handleNotification stA ⟨"A", [], demoNotification⟩).1 = NotifyResult.success := by
  have h1 := notify_404_iff stA reach_stA ⟨"B", ["u"], demoNotification⟩
  have h2 := notify_404_iff stA reach_stA ⟨"A", [], demoNotification⟩
  have hnf := h1.1.mpr (Or.inl (by decide))
  exact ⟨hnf, h1.2.1 hnf, h2.2.2 [1] (by decide)⟩

/-- C6: `verifyApiKey` is true iff the stored key for the account equals the
presented one (false in particular when nothing is stored), and
`storeApiKey` overwrites unconditionally, so after storing `k1` then `k2`
only `k2` verifies. -/
theorem verifyKey_spec (st : ServerState) (a k k1 k2 : String) :
    (verifyApiKey st k a = true ↔ mapGet st.apiKeys a = some k) ∧
    (mapGet st.apiKeys a = none → verifyApiKey st k a = false) ∧
    verifyApiKey (storeApiKey (storeApiKey st a k1) a k2) k2 a = true ∧
    (k1 ≠ k2 → verifyApiKey (storeApiKey (storeApiKey st a k1) a k2) k1 a = false) := by
  refine ⟨?_, ?_, ?_, ?_⟩
  · simp [verifyApiKey]
  · intro h
    simp [verifyApiKey, h]
  · simp [verifyApiKey, storeApiKey, mapGet_mapSet_self]
  · intro hne
    simp [verifyApiKey, storeApiKey, mapGet_mapSet_self]
    exact fun hEq => hne hEq.symm

/-- C6 witness: storing `k1` then `k2` for account `a` makes `k2` verify and
`k1` fail. -/
theorem verifyKey_spec_witness :
    verifyApiKey (storeApiKey (storeApiKey initState "a" "k1") "a" "k2") "k2" "a" = true ∧
    verifyApiKey (storeApiKey (storeApiKey initState "a" "k1") "a" "k2") "k1" "a" = false :=
  ⟨(verifyKey_spec initState "a" "k" "k1" "k2").2.2.1,
    (verifyKey_spec initState "a" "k" "k1" "k2").2.2.2 (by decide)⟩

/-- C8: a frame that fails `SubscriptionMessageSchema` validation makes the
handler reply with the error frame on the same socket and leaves the whole
server state — registry, tags and the socket itself — untouched (the handler
has no close path). -/
theorem invalid_subscription_noop (st : ServerState) (ws : Nat) (msg : Option Json)
    (h : Option.bind msg parseSubscription = none) :
    wsOnMessage st ws msg = (st, [(ws, OutMsg.invalidSubscription)]) := by
  simp [wsOnMessage, h]

/-- C8 witness: an object frame with no fields fails validation; the state is
returned unchanged with the error reply. -/
theorem invalid_subscription_noop_witness :
    Option.bind (some (Json.obj [])) parseSubscription = none ∧
    wsOnMessage stA 1 (some (Json.obj [])) = (stA, [(1, OutMsg.invalidSubscription)]) :=
  ⟨rfl, invalid_subscription_noop stA 1 (some (Json.obj [])) rfl⟩

/-- C4: `removeConnection` is idempotent — a second call on the same client
leaves the registry exactly as the first left it — and it is a no-op on a
client that was never tagged (or never existed).  The two `Nodup` hypotheses
are the representation invariants of JS `Map` (unique keys) and `Set`
(no duplicate members). -/
theorem unregister_idempotent (st : ServerState) (ws : Nat)
    (hk : (st.userChannels.map Prod.fst).Nodup)
    (hs : ∀ a l, mapGet st.userChannels a = some l → l.Nodup) :
    removeConnection (removeConnection st ws) ws = removeConnection st ws ∧
    (∀ conn, mapGet st.conns ws = some conn → conn.droplertId = none →
      removeConnection st ws = st) ∧
    (mapGet st.conns ws = none → removeConnection st ws = st) := by
  refine ⟨?_, ?_, ?_⟩
  · rcases removeConnection_cases st ws with heq | ⟨conn, d, clients, h1, h2, h3, h4, hcase⟩
    · rw [heq]
      exact heq
    · rcases hcase with ⟨h5, heq⟩ | ⟨h5, heq⟩
      · rw [heq]
        have hnone : mapGet (mapDelete st.userChannels d) d = none :=
          mapGet_mapDelete_self _ _ hk
        simp [removeConnection, h1, h2, h3, hnone]
      · rw [heq]
        have hget : mapGet (mapSet st.userChannels d (clients.erase ws)) d =
            some (clients.erase ws) := mapGet_mapSet_self _ _ _
        have hnm : ws ∉ clients.erase ws := (hs d clients h4).not_mem_erase
        have hee : (clients.erase ws).erase ws = clients.erase ws :=
          List.erase_of_not_mem hnm
        have hsame : mapSet (mapSet st.userChannels d (clients.erase ws)) d
            (clients.erase ws) = mapSet st.userChannels d (clients.erase ws) :=
          mapSet_get_same _ _ _ hget
        simp [removeConnection, h1, h2, h3, hget, hee, h5, hsame]
  · intro conn h hd
    simp [removeConnection, h, hd]
  · intro h
    simp [removeConnection, h]

/-- C4 witness: a double unregister of the subscribed socket 1 in `stA`, and
an unregister of the never-tagged socket in `stOneConn`. -/
theorem unregister_idempotent_witness :
    removeConnection (removeConnection stA 1) 1 = removeConnection stA 1 ∧
    removeConnection stOneConn 1 = stOneConn := by
  have hsA : ∀ a l, mapGet stA.userChannels a = some l → l.Nodup := by
    intro a l h
    have hch : stA.userChannels = [("A", [1])] := by decide
    rw [hch] at h
    by_cases ha : a = "A"
    · subst ha
      simp [mapGet] at h
      subst h
      decide
    · simp [mapGet, ha] at h
  have hsO : ∀ a l, mapGet stOneConn.userChannels a = some l → l.Nodup := by
    intro a l h
    have hch : mapGet stOneConn.userChannels a = none := rfl
    rw [hch] at h
    exact absurd h (by simp)
  exact ⟨(unregister_idempotent stA 1 (by decide) hsA).1,
    (unregister_idempotent stOneConn 1 (by decide) hsO).2.1
      ⟨true, none, none, true, some WS_OPEN⟩ (by decide) rfl⟩

/-- C1 (amended): in every state reached WITHOUT re-subscribing an
already-subscribed connection under a different account, a connection sits in
at most one account's set, namely the one matching its current `droplertId`
tag.  (The restriction is forced: a re-subscribe leaves the connection in the
old account's set as well, see the counterexample.) -/
theorem registry_at_most_one_set (st : ServerState) (hr : ReachNR st) (c : Nat) (a b : String)
    (ha : c ∈ chanList st a) (hb : c ∈ chanList st b) :
    a = b ∧ ∃ conn, mapGet st.conns c = some conn ∧ conn.droplertId = some a := by
  obtain ⟨hchan, htag⟩ := reachNR_good hr
  obtain ⟨la, hqa, hma⟩ := chanList_mem_some st a c ha
  obtain ⟨lb, hqb, hmb⟩ := chanList_mem_some st b c hb
  obtain ⟨ca, hca, hda⟩ := htag a la c hqa hma
  obtain ⟨cb, hcb, hdb⟩ := htag b lb c hqb hmb
  rw [hca] at hcb
  have hcc := Option.some.inj hcb
  subst hcc
  rw [hda] at hdb
  exact ⟨Option.some.inj hdb, ca, hca, hda⟩

/-- C1 counterexample: after socket 1 subscribes to `A` and then re-subscribes
to `B`, the reachable state has it in BOTH accounts' sets (its tag is `B`,
yet it was not removed from `A`'s set) — the claimed invariant fails. -/
theorem resubscribe_leaves_old_entry :
    Reach stAB ∧
    mapGet stAB.conns 1 = some ⟨true, some "B", some "u", true, some WS_OPEN⟩ ∧
    1 ∈ chanList stAB "A" ∧ 1 ∈ chanList stAB "B" :=
  ⟨reach_stAB, by decide, by decide, by decide⟩

/-- C1 witness: the amended invariant applied to the no-retag state `stA`. -/
theorem registry_at_most_one_set_witness :
    "A" = "A" ∧ ∃ conn, mapGet stA.conns 1 = some conn ∧ conn.droplertId = some "A" :=
  registry_at_most_one_set stA reachNR_stA 1 "A" "A" (by decide) (by decide)

/- ### Registering and unregistering a batch of connections (C5) -/

theorem registerAll_cons (st : ServerState) (a url : String) (c : Nat) (t : List Nat) :
    registerAll st a url (c :: t) =
      registerAll (handleSubscription (handleConnection st c) c a url) a url t := rfl

theorem unregisterAll_cons (st : ServerState) (c : Nat) (t : List Nat) :
    unregisterAll st (c :: t) = unregisterAll (removeConnection st c) t := rfl

theorem mapGet_some_mem_keys {κ α : Type} [DecidableEq κ] (m : List (κ × α)) (k : κ) (v : α)
    (h : mapGet m k = some v) : k ∈ m.map Prod.fst := by
  by_contra hnot
  rw [(mapGet_none_iff m k).mpr hnot] at h
  cases h

theorem registerStep_facts (st : ServerState) (a url : String) (c : Nat) (p : List Nat)
    (hfresh : mapGet st.conns c = none) (hp : mapGet st.userChannels a = some p)
    (hcp : c ∉ p) :
    mapGet (handleSubscription (handleConnection st c) c a url).userChannels a =
        some (p ++ [c]) ∧
    mapGet (handleSubscription (handleConnection st c) c a url).conns c =
        some ⟨true, some a, some url, true, some WS_OPEN⟩ ∧
    (∀ x, x ≠ c →
      mapGet (handleSubscription (handleConnection st c) c a url).conns x =
        mapGet st.conns x) ∧
    (handleSubscription (handleConnection st c) c a url).userChannels.map Prod.fst =
        st.userChannels.map Prod.fst := by
  refine ⟨?_, ?_, ?_, ?_⟩
  · rw [handleSubscription_userChannels]
    show mapGet (mapSet st.userChannels a
      (setAdd ((mapGet st.userChannels a).getD []) c)) a = some (p ++ [c])
    rw [mapGet_mapSet_self, hp]
    simp [setAdd, hcp]
  · rw [handleSubscription_conns]
    show mapGet (mapUpdate (st.conns ++ [(c, _)]) c _) c = _
    rw [mapGet_mapUpdate_self, mapGet_append_none _ _ _ hfresh]
    simp [mapGet]
  · intro x hx
    rw [handleSubscription_conns]
    show mapGet (mapUpdate (st.conns ++ [(c, _)]) c _) x = _
    rw [mapGet_mapUpdate_ne _ _ _ _ hx]
    rcases hgx : mapGet st.conns x with _ | v
    · rw [mapGet_append_none _ _ _ hgx]
      simp [mapGet, hx]
    · exact mapGet_append_left _ _ _ _ hgx
  · rw [handleSubscription_userChannels]
    show (mapSet st.userChannels a _).map Prod.fst = _
    exact keys_mapSet_of_mem _ _ _ (mapGet_some_mem_keys _ _ _ hp)

theorem registerAll_builds :
    ∀ (cs : List Nat) (st : ServerState) (a url : String) (p : List Nat),
      (p ++ cs).Nodup → (∀ c ∈ cs, mapGet st.conns c = none) →
      mapGet st.userChannels a = some p →
      mapGet (registerAll st a url cs).userChannels a = some (p ++ cs) ∧
      (∀ c ∈ cs, mapGet (registerAll st a url cs).conns c =
        some ⟨true, some a, some url, true, some WS_OPEN⟩) ∧
      (registerAll st a url cs).userChannels.map Prod.fst =
        st.userChannels.map Prod.fst ∧
      (∀ x, x ∉ cs → mapGet (registerAll st a url cs).conns x = mapGet st.conns x) := by
  intro cs
  induction cs with
  | nil =>
      intro st a url p hnd hfresh hp
      refine ⟨?_, ?_, rfl, fun x _ => rfl⟩
      · rw [List.append_nil]
        exact hp
      · intro c hc
        simp at hc
  | cons c t ih =>
      intro st a url p hnd hfresh hp
      have hcp : c ∉ p := by
        rw [List.nodup_append] at hnd
        intro hmm
        exact hnd.2.2 hmm (List.mem_cons_self c t)
      have hct : c ∉ t := by
        rw [List.nodup_append] at hnd
        have := hnd.2.1
        rw [List.nodup_cons] at this
        exact this.1
      obtain ⟨hs1, hs2, hs3, hs4⟩ := registerStep_facts st a url c p
        (hfresh c (List.mem_cons_self c t)) hp hcp
      have hnd1 : ((p ++ [c]) ++ t).Nodup := by
        rw [List.append_assoc]
        exact hnd
      have hfresh1 : ∀ x ∈ t, mapGet (handleSubscription (handleConnection st c) c a url).conns
          x = none := by
        intro x hx
        have hxc : x ≠ c := fun hEq => hct (hEq ▸ hx)
        rw [hs3 x hxc]
        exact hfresh x (List.mem_cons_of_mem c hx)
      obtain ⟨ih1, ih2, ih3, ih4⟩ := ih _ a url (p ++ [c]) hnd1 hfresh1 hs1
      rw [registerAll_cons]
      refine ⟨?_, ?_, ?_, ?_⟩
      · rw [ih1, List.append_assoc]
        rfl
      · intro x hx
        rcases List.mem_cons.mp hx with hx | hx
        · subst hx
          rw [ih4 x hct]
          exact hs2
        · exact ih2 x hx
      · rw [ih3, hs4]
      · intro x hx
        have hxc : x ≠ c := fun hEq => hx (hEq ▸ List.mem_cons_self c t)
        have hxt : x ∉ t := fun hmm => hx (List.mem_cons_of_mem c hmm)
        rw [ih4 x hxt, hs3 x hxc]

theorem registerAll_init (a url : String) (c : Nat) (t : List Nat)
    (hnd : (c :: t).Nodup) :
    mapGet (registerAll initState a url (c :: t)).userChannels a = some (c :: t) ∧
    (∀ x ∈ c :: t, mapGet (registerAll initState a url (c :: t)).conns x =
      some ⟨true, some a, some url, true, some WS_OPEN⟩) ∧
    ((registerAll initState a url (c :: t)).userChannels.map Prod.fst).Nodup := by
  have hct : c ∉ t := (List.nodup_cons.mp hnd).1
  have h1 : mapGet (handleSubscription (handleConnection initState c) c a url).userChannels a =
      some [c] := by
    rw [handleSubscription_userChannels]
    show mapGet (mapSet initState.userChannels a _) a = _
    rw [mapGet_mapSet_self]
    simp [initState, mapGet, setAdd]
  have h2 : mapGet (handleSubscription (handleConnection initState c) c a url).conns c =
      some ⟨true, some a, some url, true, some WS_OPEN⟩ := by
    rw [handleSubscription_conns]
    show mapGet (mapUpdate (initState.conns ++ [(c, _)]) c _) c = _
    rw [mapGet_mapUpdate_self]
    simp [initState, mapGet]
  have h3 : ∀ x, x ≠ c →
      mapGet (handleSubscription (handleConnection initState c) c a url).conns x = none := by
    intro x hx
    rw [handleSubscription_conns]
    show mapGet (mapUpdate (initState.conns ++ [(c, _)]) c _) x = _
    rw [mapGet_mapUpdate_ne _ _ _ _ hx]
    simp [initState, mapGet, hx]
  have h4 : (handleSubscription (handleConnection initState c) c a url).userChannels.map
      Prod.fst = [a] := by
    rw [handleSubscription_userChannels]
    rfl
  have hfresh1 : ∀ x ∈ t,
      mapGet (handleSubscription (handleConnection initState c) c a url).conns x = none := by
    intro x hx
    exact h3 x (fun hEq => hct (hEq ▸ hx))
  have hnd1 : (([c] ++ t)).Nodup := hnd
  obtain ⟨ih1, ih2, ih3, ih4⟩ := registerAll_builds t _ a url [c] hnd1 hfresh1 h1
  rw [registerAll_cons]
  refine ⟨?_, ?_, ?_⟩
  · rw [ih1, List.singleton_append]
  · intro x hx
    rcases List.mem_cons.mp hx with hx | hx
    · subst hx
      rw [ih4 x hct]
      exact h2
    · exact ih2 x hx
  · rw [ih3, h4]
    exact List.nodup_singleton a

theorem unregisterAll_deletes :
    ∀ (cs : List Nat) (st : ServerState) (a : String), a ≠ "" →
      (st.userChannels.map Prod.fst).Nodup → cs.Nodup →
      mapGet st.userChannels a = some cs →
      (∀ c ∈ cs, ∃ conn, mapGet st.conns c = some conn ∧ conn.droplertId = some a) →
      cs ≠ [] → mapGet (unregisterAll st cs).userChannels a = none := by
  intro cs
  induction cs with
  | nil =>
      intro st a hA hkeys hnd hchan htags hne
      exact absurd rfl hne
  | cons c t ih =>
      intro st a hA hkeys hnd hchan htags hne
      obtain ⟨conn, hcn, hdn⟩ := htags c (List.mem_cons_self c t)
      by_cases ht : t = []
      · subst ht
        have hrc : removeConnection st c =
            { st with userChannels := mapDelete st.userChannels a } := by
          simp [removeConnection, hcn, hdn, hA, hchan]
        rw [unregisterAll_cons, hrc]
        exact mapGet_mapDelete_self _ _ hkeys
      · have hrc : removeConnection st c =
            { st with userChannels := mapSet st.userChannels a t } := by
          simp [removeConnection, hcn, hdn, hA, hchan, ht]
        rw [unregisterAll_cons, hrc]
        refine ih _ a hA ?_ (List.nodup_cons.mp hnd).2 ?_ ?_ ht
        · show ((mapSet st.userChannels a t).map Prod.fst).Nodup
          rw [keys_mapSet_of_mem _ _ _ (mapGet_some_mem_keys _ _ _ hchan)]
          exact hkeys
        · show mapGet (mapSet st.userChannels a t) a = some t
          exact mapGet_mapSet_self _ _ _
        · intro x hx
          exact htags x (List.mem_cons_of_mem c hx)

/-- C5 (amended): for every NON-EMPTY account id `a`, registering any batch of
fresh connections under `a` (each tagged with `a`) and then unregistering all
of them leaves `a` absent from the registry.  (The restriction to `a ≠ ""` is
forced: `removeConnection` guards on JS truthiness of `droplertId`, so the
empty-string account is never cleaned up — see the counterexample.) -/
theorem register_then_unregister_absent (a url : String) (cs : List Nat)
    (hA : a ≠ "") (hnd : cs.Nodup) :
    mapGet (unregisterAll (registerAll initState a url cs) cs).userChannels a = none := by
  cases cs with
  | nil => rfl
  | cons c t =>
      obtain ⟨hi1, hi2, hi3⟩ := registerAll_init a url c t hnd
      exact unregisterAll_deletes (c :: t) _ a hA hi3 hnd hi1
        (fun x hx => ⟨_, hi2 x hx, rfl⟩) (by simp)

/-- C5 counterexample: with the empty-string account id, the registered
connection is tagged `""`, but unregistering is a no-op (`if (ws.droplertId)`
is falsy on `""`), so the account entry lingers with the claim violated at
`N = 1`, `A = ""`. -/
theorem unregister_empty_account_lingers :
    mapGet (registerAll initState "" "u" [1]).conns 1 =
      some ⟨true, some "", some "u", true, some WS_OPEN⟩ ∧
    mapGet (unregisterAll (registerAll initState "" "u" [1]) [1]).userChannels "" =
      some [1] :=
  ⟨by decide, by decide⟩

/-- C5 witness: two connections registered and unregistered under `A`. -/
theorem register_then_unregister_absent_witness :
    mapGet (unregisterAll (registerAll initState "A" "u" [1, 2]) [1, 2]).userChannels "A" =
      none :=
  register_then_unregister_absent "A" "u" [1, 2] (by decide) (by decide)

/-- C7 counterexample: socket 1 reachably subscribes under the EMPTY-STRING
account id and never acknowledges a probe, yet after two full monitor cycles
it is still registered (its `isAlive` flag is stuck at false): the dead-branch
calls `removeConnection`, whose truthiness guard no-ops on the `""` tag, so
the claimed two-cycle eviction fails. -/
theorem dead_empty_account_never_evicted :
    Reach (registerAll initState "" "u" [1]) ∧
    1 ∈ chanList (cleanup (cleanup (registerAll initState "" "u" [1])).1).1 "" ∧
    mapGet (cleanup (cleanup (registerAll initState "" "u" [1])).1).1.conns 1 =
      some ⟨false, some "", some "u", true, some WS_OPEN⟩ :=
  ⟨reach_emptyAcct, by decide, by decide⟩

/-- C7 (amended): in a state reached without re-tagging subscriptions, a live
registered socket whose account id is NON-EMPTY behaves exactly as claimed:
on the first sweep it is probed (pinged, `isAlive` set false) and stays
registered; an unacknowledged probe makes the next sweep evict it from the
registry entirely; and a socket that acknowledges (pong) before every sweep
is never evicted.  (Both restrictions are forced: the `""` account id is
never cleaned up — see the counterexample — and a re-tagged socket sits in
two sets, where one sweep both probes and evicts it.) -/
theorem monitor_two_cycle (st : ServerState) (c : Nat) (conn : WebSocketClient) (d : String)
    (hr : ReachNR st) (hd : d ≠ "") (hc : mapGet st.conns c = some conn)
    (hws : conn.isWebSocket = true) (halive : conn.isAlive = true)
    (htagc : conn.droplertId = some d) (hmem : c ∈ chanList st d) :
    (mapGet (cleanup st).1.conns c = some { conn with isAlive := false } ∧
      c ∈ chanList (cleanup st).1 d ∧ c ∈ (cleanup st).2) ∧
    (∀ a, c ∉ chanList (cleanup (cleanup st).1).1 a) ∧
    (∀ n, c ∈ chanList ((fun s => (cleanup (handlePong s c)).1)^[n] st) d) := by
  obtain ⟨hchan, htag⟩ := reachNR_good hr
  have hcycle1 := cleanup_live_ws st hchan htag c conn d hc halive hws hmem
  refine ⟨hcycle1, ?_, ?_⟩
  · have hr1 : ReachNR (cleanup st).1 := Relation.ReflTransGen.tail hr (StepNR.sweep st)
    obtain ⟨hchan1, htag1⟩ := reachNR_good hr1
    exact cleanup_dead (cleanup st).1 hchan1 htag1 c { conn with isAlive := false } d
      hcycle1.1 rfl htagc hd hcycle1.2.1
  · suffices h : ∀ (m : Nat) (s : ServerState), ReachNR s →
        (∃ cn : WebSocketClient, mapGet s.conns c = some cn ∧ cn.isWebSocket = true ∧
          cn.droplertId = some d) →
        c ∈ chanList s d →
        c ∈ chanList ((fun s => (cleanup (handlePong s c)).1)^[m] s) d by
      intro n
      exact h n st hr ⟨conn, hc, hws, htagc⟩ hmem
    intro m
    induction m with
    | zero =>
        intro s hrs hcn hm
        simpa using hm
    | succ m ih =>
        intro s hrs hcn hm
        obtain ⟨cn, hcn1, hcn2, hcn3⟩ := hcn
        have hp : mapGet (handlePong s c).conns c = some { cn with isAlive := true } := by
          show mapGet (mapUpdate s.conns c _) c = _
          rw [mapGet_mapUpdate_self, hcn1]
          rfl
        have hpmem : c ∈ chanList (handlePong s c) d := hm
        have hrp : ReachNR (handlePong s c) :=
          Relation.ReflTransGen.tail hrs (StepNR.pong s c cn hcn1 hcn2)
        obtain ⟨hchanp, htagp⟩ := reachNR_good hrp
        have hlive := cleanup_live_ws (handlePong s c) hchanp htagp c
          { cn with isAlive := true } d hp rfl hcn2 hpmem
        have hrs1 : ReachNR (cleanup (handlePong s c)).1 :=
          Relation.ReflTransGen.tail hrp (StepNR.sweep _)
        rw [Function.iterate_succ_apply]
        exact ih (cleanup (handlePong s c)).1 hrs1
          ⟨{ cn with isAlive := false }, hlive.1, hcn2, hcn3⟩ hlive.2.1

/-- C7 witness: the live socket of `stA` is probed on the first sweep, evicted
on the second when it never pongs, and survives two pong-then-sweep cycles. -/
theorem monitor_two_cycle_witness :
    1 ∈ (cleanup stA).2 ∧
    1 ∉ chanList (cleanup (cleanup stA).1).1 "A" ∧
    1 ∈ chanList ((fun s => (cleanup (handlePong s 1)).1)^[2] stA) "A" := by
  have h := monitor_two_cycle stA 1 ⟨true, some "A", some "u", true, some WS_OPEN⟩ "A"
    reachNR_stA (by decide) (by decide) rfl rfl rfl (by decide)
  exact ⟨h.1.2.2, h.2.1 "A", h.2.2 2⟩

/- ### Placeholder objects are inert and immortal (C9, C10) -/

theorem cleanupStep_nonws_conns (s : ServerState) (ps : List Nat) (i c : Nat)
    (conn : WebSocketClient) (hc : mapGet s.conns c = some conn)
    (hnws : conn.isWebSocket = false) :
    mapGet (cleanupStep (s, ps) i).1.conns c = some conn := by
  by_cases hne : c = i
  · subst hne
    rcases ha : conn.isAlive with _ | _
    · rw [cleanupStep_dead s ps c conn hc ha, removeConnection_conns]
      exact hc
    · rw [cleanupStep_live_nonws s ps c conn hc ha hnws]
      exact hc
  · rw [cleanupStep_conns_frame s ps i c hne]
    exact hc

theorem cleanupFold_nonws_conns :
    ∀ (ids : List Nat) (s : ServerState) (ps : List Nat) (c : Nat) (conn : WebSocketClient),
      mapGet s.conns c = some conn → conn.isWebSocket = false →
      mapGet ((ids.foldl cleanupStep (s, ps)).1).conns c = some conn := by
  intro ids
  induction ids with
  | nil =>
      intro s ps c conn hc hnws
      exact hc
  | cons i rest ih =>
      intro s ps c conn hc hnws
      rcases hcs : cleanupStep (s, ps) i with ⟨s1, ps1⟩
      have h1 := cleanupStep_nonws_conns s ps i c conn hc hnws
      rw [hcs] at h1
      rw [List.foldl_cons, hcs]
      exact ih s1 ps1 c conn h1 hnws

theorem nonws_conn_frozen_step {s s' : ServerState} (hs : Step s s') (c : Nat)
    (conn : WebSocketClient) (hc : mapGet s.conns c = some conn)
    (hnws : conn.isWebSocket = false) : mapGet s'.conns c = some conn := by
  cases hs with
  | connect c0 hfresh => exact mapGet_append_left _ _ _ _ hc
  | subscribe c0 d0 w conn0 hc0 hws0 =>
      have hne : c ≠ c0 := by
        intro hEq
        subst hEq
        rw [hc] at hc0
        have h2 := Option.some.inj hc0
        rw [← h2] at hws0
        rw [hnws] at hws0
        exact Bool.noConfusion hws0
      rw [handleSubscription_conns, mapGet_mapUpdate_ne _ _ _ _ hne]
      exact hc
  | setKey newId k d0 w hfresh hk =>
      rw [setApiKey_conns]
      exact mapGet_append_left _ _ _ _ hc
  | pong c0 conn0 hc0 hws0 =>
      have hne : c ≠ c0 := by
        intro hEq
        subst hEq
        rw [hc] at hc0
        have h2 := Option.some.inj hc0
        rw [← h2] at hws0
        rw [hnws] at hws0
        exact Bool.noConfusion hws0
      show mapGet (mapUpdate s.conns c0 _) c = _
      rw [mapGet_mapUpdate_ne _ _ _ _ hne]
      exact hc
  | socketClosed c0 conn0 hc0 hws0 =>
      have hne : c ≠ c0 := by
        intro hEq
        subst hEq
        rw [hc] at hc0
        have h2 := Option.some.inj hc0
        rw [← h2] at hws0
        rw [hnws] at hws0
        exact Bool.noConfusion hws0
      show mapGet (mapUpdate s.conns c0 _) c = _
      rw [mapGet_mapUpdate_ne _ _ _ _ hne]
      exact hc
  | closeEvent c0 conn0 hc0 hws0 =>
      rw [removeConnection_conns]
      exact hc
  | sweep => exact cleanupFold_nonws_conns (sweepSnapshot s) s [] c conn hc hnws

theorem nonws_conn_frozen {s s' : ServerState} (hsteps : Relation.ReflTransGen Step s s')
    (c : Nat) (conn : WebSocketClient) (hc : mapGet s.conns c = some conn)
    (hnws : conn.isWebSocket = false) : mapGet s'.conns c = some conn := by
  induction hsteps with
  | refl => exact hc
  | tail h12 hstep ih => exact nonws_conn_frozen_step hstep c conn ih hnws

theorem cleanupStep_nonws_alive_keep (s : ServerState) (ps : List Nat) (i c : Nat)
    (conn : WebSocketClient) (d : String) (hc : mapGet s.conns c = some conn)
    (hnws : conn.isWebSocket = false) (halive : conn.isAlive = true)
    (hm : c ∈ chanList s d) : c ∈ chanList (cleanupStep (s, ps) i).1 d := by
  by_cases hne : c = i
  · subst hne
    rw [cleanupStep_live_nonws s ps c conn hc halive hnws]
    exact hm
  · exact cleanupStep_mem_frame s ps i c d hne hm

theorem cleanupFold_nonws_keep :
    ∀ (ids : List Nat) (s : ServerState) (ps : List Nat) (c : Nat) (conn : WebSocketClient)
      (d : String), mapGet s.conns c = some conn → conn.isWebSocket = false →
      conn.isAlive = true → c ∈ chanList s d →
      c ∈ chanList ((ids.foldl cleanupStep (s, ps)).1) d := by
  intro ids
  induction ids with
  | nil =>
      intro s ps c conn d hc hnws halive hm
      exact hm
  | cons i rest ih =>
      intro s ps c conn d hc hnws halive hm
      rcases hcs : cleanupStep (s, ps) i with ⟨s1, ps1⟩
      have h1 := cleanupStep_nonws_conns s ps i c conn hc hnws
      have h2 := cleanupStep_nonws_alive_keep s ps i c conn d hc hnws halive hm
      rw [hcs] at h1 h2
      rw [List.foldl_cons, hcs]
      exact ih s1 ps1 c conn d h1 hnws halive h2

theorem nonws_mem_persists_step {s s' : ServerState} (hs : Step s s') (c : Nat)
    (conn : WebSocketClient) (d : String) (hc : mapGet s.conns c = some conn)
    (hnws : conn.isWebSocket = false) (halive : conn.isAlive = true)
    (hmem : c ∈ chanList s d) : c ∈ chanList s' d := by
  cases hs with
  | connect c0 hfresh => exact hmem
  | subscribe c0 d0 w conn0 hc0 hws0 =>
      unfold chanList
      rw [handleSubscription_userChannels]
      by_cases hdd : d = d0
      · subst hdd
        rw [mapGet_mapSet_self]
        exact mem_setAdd.mpr (Or.inr hmem)
      · rw [mapGet_mapSet_ne _ _ _ _ hdd]
        exact hmem
  | setKey newId k d0 w hfresh hk =>
      unfold chanList
      rw [setApiKey_userChannels]
      by_cases hdd : d = d0
      · subst hdd
        rw [mapGet_mapSet_self]
        exact mem_setAdd.mpr (Or.inr hmem)
      · rw [mapGet_mapSet_ne _ _ _ _ hdd]
        exact hmem
  | pong c0 conn0 hc0 hws0 => exact hmem
  | socketClosed c0 conn0 hc0 hws0 => exact hmem
  | closeEvent c0 conn0 hc0 hws0 =>
      have hne : c ≠ c0 := by
        intro hEq
        subst hEq
        rw [hc] at hc0
        have h2 := Option.some.inj hc0
        rw [← h2] at hws0
        rw [hnws] at hws0
        exact Bool.noConfusion hws0
      exact removeConnection_mem_preserved s c0 c d hne hmem
  | sweep => exact cleanupFold_nonws_keep (sweepSnapshot s) s [] c conn d hc hnws halive hmem

/-- C9: the placeholder object inserted by `POST /set` never receives a push:
in the post-`/set` state and every state reachable from it, whatever account
and target-origin list a dispatch names, the placeholder is excluded by the
`readyState === WebSocket.OPEN` filter (its `readyState` is `undefined`), so
no send is attempted on it. -/
theorem placeholder_never_pushed (st : ServerState) (newId : Nat) (k d w : String)
    (hfresh : mapGet st.conns newId = none) (st' : ServerState)
    (hsteps : Relation.ReflTransGen Step (setApiKey st newId k d w) st')
    (p : NotificationPayload) :
    newId ∉ (handleNotification st' p).2.map Prod.fst := by
  have hp0 : mapGet (setApiKey st newId k d w).conns newId =
      some ⟨true, some d, some w, false, none⟩ := by
    rw [setApiKey_conns, mapGet_append_none _ _ _ hfresh]
    simp [mapGet]
  have hp1 := nonws_conn_frozen hsteps newId _ hp0 rfl
  rw [handleNotification_sends_ids]
  intro hmm
  have hdel := (List.mem_filter.mp hmm).2
  obtain ⟨cn, hcn, hrs, _⟩ := (clientDeliverable_iff st' p.websites newId).mp hdel
  rw [hp1] at hcn
  have heq := Option.some.inj hcn
  rw [← heq] at hrs
  simp at hrs

/-- C9 witness: right after `POST /set` for account `A`, a dispatch to `A`
targeting the placeholder's own origin does not send to it. -/
theorem placeholder_never_pushed_witness :
    7 ∉ (handleNotification (setApiKey initState 7 "k" "A" "u")
      ⟨"A", ["u"], demoNotification⟩).2.map Prod.fst :=
  placeholder_never_pushed initState 7 "k" "A" "u" rfl _
    Relation.ReflTransGen.refl ⟨"A", ["u"], demoNotification⟩

/-- C10: a `POST /set` placeholder is never evicted: its client object is
never mutated by any event (in particular the sweep never sets its `isAlive`
false — it is not a `WebSocket` instance, so it is only ever alive-checked,
never probed), it stays in its account's set forever, and every later
dispatch lookup for that account succeeds. -/
theorem placeholder_keeps_account (st st' : ServerState)
    (hsteps : Relation.ReflTransGen Step st st') (c : Nat) (conn : WebSocketClient)
    (d : String) (hc : mapGet st.conns c = some conn) (hnws : conn.isWebSocket = false)
    (halive : conn.isAlive = true) (htagc : conn.droplertId = some d)
    (hmem : c ∈ chanList st d) :
    mapGet st'.conns c = some conn ∧ c ∈ chanList st' d ∧
    (∀ p : NotificationPayload, p.droplertId = d →
      (handleNotification st' p).1 = NotifyResult.success) := by
  have hmem1 : c ∈ chanList st' d := by
    induction hsteps with
    | refl => exact hmem
    | tail h12 hstep ih =>
        exact nonws_mem_persists_step hstep c conn d
          (nonws_conn_frozen h12 c conn hc hnws) hnws halive ih
  have hfrozen := nonws_conn_frozen hsteps c conn hc hnws
  refine ⟨hfrozen, hmem1, ?_⟩
  intro p hpd
  apply handleNotification_success_of_mem st' p c
  rw [hpd]
  exact hmem1

/-- C10 witness: the placeholder of `stPlaceholder` survives a monitor sweep
untouched, still alive and registered, and dispatch to its account still
succeeds. -/
theorem placeholder_keeps_account_witness :
    mapGet (cleanup stPlaceholder).1.conns 7 = some ⟨true, some "A", some "u", false, none⟩ ∧
    7 ∈ chanList (cleanup stPlaceholder).1 "A" ∧
    (handleNotification (cleanup stPlaceholder).1 ⟨"A", ["u"], demoNotification⟩).1 =
      NotifyResult.success := by
  have h := placeholder_keeps_account stPlaceholder (cleanup stPlaceholder).1
    (Relation.ReflTransGen.single (Step.sweep stPlaceholder)) 7
    ⟨true, some "A", some "u", false, none⟩ "A" (by decide) rfl rfl rfl (by decide)
  exact ⟨h.1, h.2.1, h.2.2 ⟨"A", ["u"], demoNotification⟩ rfl⟩
